import Mathlib

/-!
Verification of the spatial-temporal aggregation pipeline of the RethinkAI
experiment-7 dashboard (`src/experiment-7/app.py`).

The Python source is shallowly embedded:

* pandas tables become Lean lists of structure values; a value that failed
  `to_numeric`/`to_datetime` coercion (NaN/NaT) is `none`;
* the external `h3.latlng_to_cell` library call is an opaque parameter
  `cell : ℚ → ℚ → ℕ → ℕ` (per the spec it is a deterministic function of a
  latitude/longitude pair and a resolution level);
* floating point arithmetic is modelled over ℚ, timestamps over ℤ;
* fallible code returns `Option`/`Except`.
-/

/-- Pandas comparison `x > c` where `x` may be NaN (`none`): a NaN compares
false against any bound, so the row fails the mask. -/
def pdGt (x : Option ℚ) (c : ℚ) : Bool :=
  match x with
  | some v => decide (c < v)
  | none => false

/-- Pandas comparison `x < c` where `x` may be NaN (`none`). -/
def pdLt (x : Option ℚ) (c : ℚ) : Bool :=
  match x with
  | some v => decide (v < c)
  | none => false

/-- A raw table row as it leaves the streaming decoder, holding the values
that `process_dataframe` will coerce: `none` stands for a latitude, longitude
or date whose coercion produced NaN/NaT. -/
structure RawRow where
  rid : ℕ
  latitude : Option ℚ
  longitude : Option ℚ
  date : Option ℤ
  deriving DecidableEq

/-- A row after `process_dataframe`: same fields plus the derived `month`
bucket (`date.dt.to_period("M").dt.to_timestamp()`). -/
structure ProcRow where
  rid : ℕ
  latitude : Option ℚ
  longitude : Option ℚ
  date : Option ℤ
  month : Option ℤ
  deriving DecidableEq

/-- The location mask of `process_dataframe` (line 132 of app.py):
`(lat > 40) & (lat < 43) & (lon > -72) & (lon < -70)` with pandas NaN
semantics. -/
def locMask (r : ProcRow) : Bool :=
  pdGt r.latitude 40 && pdLt r.latitude 43 && pdGt r.longitude (-72) && pdLt r.longitude (-70)

/-- Shallow embedding of `process_dataframe` (app.py lines 126-138).
`monthOf` is the month-bucketing function `to_period("M").to_timestamp()` on
timestamps. With `location_columns` the coerced coordinates are filtered by
the bounding-box mask; with `date_column` the `month` column is derived. -/
def process_dataframe (monthOf : ℤ → ℤ) (location_columns date_column : Bool)
    (df : List RawRow) : List ProcRow :=
  let rows := df.map (fun r => ProcRow.mk r.rid r.latitude r.longitude r.date none)
  let rows := if location_columns then rows.filter locMask else rows
  if date_column then
    rows.map (fun r => ProcRow.mk r.rid r.latitude r.longitude r.date (r.date.map monthOf))
  else rows

/-- The keep-predicate as the spec words it: both coordinates coerced
successfully and lie strictly inside the box `(40,43) × (-72,-70)`. -/
def specInBox (r : RawRow) : Bool :=
  match r.latitude, r.longitude with
  | some a, some o => decide (40 < a) && decide (a < 43) && decide (-72 < o) && decide (o < -70)
  | _, _ => false

/-- The row transformation `process_dataframe` applies besides filtering. -/
def toProcRow (monthOf : ℤ → ℤ) (date_column : Bool) (r : RawRow) : ProcRow :=
  ProcRow.mk r.rid r.latitude r.longitude r.date
    (if date_column then r.date.map monthOf else none)

lemma locMask_toProc (r : RawRow) :
    locMask (ProcRow.mk r.rid r.latitude r.longitude r.date none) = specInBox r := by
  cases hla : r.latitude with
  | none => simp [locMask, specInBox, pdGt, hla]
  | some a =>
    cases hlo : r.longitude with
    | none => simp [locMask, specInBox, pdGt, pdLt, hla, hlo]
    | some o => simp [locMask, specInBox, pdGt, pdLt, hla, hlo, and_assoc]

/-- C4: with `hasLocation=true`, normalization keeps exactly the rows whose
coerced latitude lies strictly in (40, 43) and coerced longitude strictly in
(-72, -70); rows on or outside the bounds and rows whose coordinate failed
numeric coercion (`none`) are dropped, and the survivors are exactly the
in-box input rows in order, carrying the derived month. -/
theorem C4_bounding_box_filter (monthOf : ℤ → ℤ) (date_column : Bool) (df : List RawRow) :
    process_dataframe monthOf true date_column df
      = (df.filter specInBox).map (toProcRow monthOf date_column) ∧
    (∀ r : RawRow, r.latitude = none ∨ r.longitude = none → specInBox r = false) ∧
    (∀ r : RawRow, specInBox r = true ↔
      (∃ a, r.latitude = some a ∧ 40 < a ∧ a < 43) ∧
      (∃ o, r.longitude = some o ∧ -72 < o ∧ o < -70)) := by
  refine ⟨?_, ?_, ?_⟩
  · have hfil : (df.map fun r => ProcRow.mk r.rid r.latitude r.longitude r.date none).filter locMask
        = (df.filter specInBox).map (fun r => ProcRow.mk r.rid r.latitude r.longitude r.date none) := by
      rw [List.filter_map]
      congr 1
      apply List.filter_congr
      intro r _
      simp [Function.comp, locMask_toProc]
    cases date_column with
    | false =>
      have hd : process_dataframe monthOf true false df
          = (df.map fun r => ProcRow.mk r.rid r.latitude r.longitude r.date none).filter locMask := rfl
      rw [hd, hfil]
      apply List.map_congr_left
      intro r _
      simp [toProcRow]
    | true =>
      have hd : process_dataframe monthOf true true df
          = ((df.map fun r => ProcRow.mk r.rid r.latitude r.longitude r.date none).filter
              locMask).map
              (fun r => ProcRow.mk r.rid r.latitude r.longitude r.date (r.date.map monthOf)) := rfl
      rw [hd, hfil, List.map_map]
      apply List.map_congr_left
      intro r _
      simp [toProcRow, Function.comp]
  · intro r h
    rcases h with h | h <;> cases h2 : r.latitude <;> cases h3 : r.longitude <;>
      simp_all [specInBox]
  · intro r
    cases h2 : r.latitude with
    | none => simp [specInBox, h2]
    | some a =>
      cases h3 : r.longitude with
      | none => simp [specInBox, h2, h3]
      | some o => simp [specInBox, h2, h3, and_assoc]

/-- A row of the in-memory `df_shots` table used by `update_shot_count`: the
rows have survived `dropna(subset=["latitude","longitude","date"])`, so the
coordinates are plain numbers; `month` is the row's month bucket
`date.dt.to_period("M").dt.to_timestamp()`. -/
structure ShotRow where
  sid : ℕ
  latitude : ℚ
  longitude : ℚ
  month : ℤ
  deriving DecidableEq

/-- Embedding of the `update_shot_count` callback (app.py lines 1216-1237):
filter `df_shots` to the target month; with no hex-cell selection return the
month row count; otherwise recompute each remaining row's hex cell at
resolution 10 and count the rows whose cell is in the selection. -/
def update_shot_count (cell : ℚ → ℚ → ℕ → ℕ) (df_shots : List ShotRow)
    (ts : ℤ) (hex_ids : List ℕ) : ℕ :=
  let df_month := df_shots.filter (fun r => decide (r.month = ts))
  if hex_ids.isEmpty then df_month.length
  else (df_month.filter (fun r => hex_ids.contains (cell r.latitude r.longitude 10))).length

/-- C8: the shot-count query returns the total number of shot rows of the
month when no hex-cell selection is supplied, and with a selection it counts
the month's rows whose recomputed resolution-10 cell lies in the selection. -/
theorem C8_shot_count (cell : ℚ → ℚ → ℕ → ℕ) (df_shots : List ShotRow)
    (ts : ℤ) (hex_ids : List ℕ) :
    (hex_ids = [] →
      update_shot_count cell df_shots ts hex_ids
        = df_shots.countP (fun r => decide (r.month = ts))) ∧
    (hex_ids ≠ [] →
      update_shot_count cell df_shots ts hex_ids
        = df_shots.countP (fun r =>
            decide (r.month = ts) && decide (cell r.latitude r.longitude 10 ∈ hex_ids))) := by
  constructor
  · intro h
    subst h
    simp [update_shot_count, List.countP_eq_length_filter]
  · intro h
    have hne : hex_ids.isEmpty = false := by
      cases hex_ids with
      | nil => exact absurd rfl h
      | cons a l => rfl
    simp only [update_shot_count, hne, Bool.false_eq_true, if_false]
    rw [List.filter_filter, List.countP_eq_length_filter]
    congr 1
    apply List.filter_congr
    intro r _
    rw [Bool.and_comm]
    simp

/-- A concrete stand-in for the external `h3.latlng_to_cell` library function,
used only to instantiate witnesses: any deterministic function of the
coordinates works, per the spec's characterization of a hex cell id. -/
def cellStub (la lo : ℚ) (_res : ℕ) : ℕ :=
  (la.num + lo.num).toNat

/-- Concrete shot table for witnesses. -/
def shotRowsW : List ShotRow :=
  [⟨1, 1, 0, 5⟩, ⟨2, 2, 0, 5⟩, ⟨3, 1, 0, 6⟩]

theorem C8_shot_count_witness :
    update_shot_count cellStub shotRowsW 5 []
        = shotRowsW.countP (fun r => decide (r.month = 5)) ∧
    update_shot_count cellStub shotRowsW 5 [1]
        = shotRowsW.countP (fun r =>
            decide (r.month = 5) && decide (cellStub r.latitude r.longitude 10 ∈ [1])) :=
  ⟨(C8_shot_count cellStub shotRowsW 5 []).1 rfl,
   (C8_shot_count cellStub shotRowsW 5 [1]).2 (by simp)⟩

/-- A point feature of the shots GeoJSON: `geometry.coordinates` is the pair
`[lon, lat]`. -/
structure PointFeature where
  plon : ℚ
  plat : ℚ
  deriving DecidableEq

/-- The shots GeoJSON dict; `features = none` models a dict without a
`"features"` key. -/
structure GeoDict where
  features : Option (List PointFeature)
  deriving DecidableEq

/-- Embedding of `compute_area_shot_count` (app.py lines 30-39): 0 when the
hex-id list is empty, the geojson argument is falsy (`none`), or the
`"features"` key is absent; otherwise a linear scan counting the point
features whose recomputed resolution-10 cell is in the selection. -/
def compute_area_shot_count (cell : ℚ → ℚ → ℕ → ℕ) (hex_ids : List ℕ)
    (shots_geojson : Option GeoDict) : ℕ :=
  if hex_ids.isEmpty then 0
  else
    match shots_geojson with
    | none => 0
    | some g =>
      match g.features with
      | none => 0
      | some feats =>
        (feats.filter (fun f => hex_ids.contains (cell f.plat f.plon 10))).length

/-- C10: the point-in-area counter returns 0 whenever the hex-id selection is
empty, the feature collection is absent, or the `"features"` key is missing —
unlike `update_shot_count`, whose empty-selection branch returns the month
total — and otherwise returns a count bounded by the number of point
features. -/
theorem C10_area_shot_count (cell : ℚ → ℚ → ℕ → ℕ) (hex_ids : List ℕ)
    (shots_geojson : Option GeoDict) (df_shots : List ShotRow) (ts : ℤ) :
    (hex_ids = [] → compute_area_shot_count cell hex_ids shots_geojson = 0 ∧
      update_shot_count cell df_shots ts [] = df_shots.countP (fun r => decide (r.month = ts))) ∧
    (shots_geojson = none → compute_area_shot_count cell hex_ids shots_geojson = 0) ∧
    (∀ g, shots_geojson = some g → g.features = none →
      compute_area_shot_count cell hex_ids shots_geojson = 0) ∧
    (∀ g feats, shots_geojson = some g → g.features = some feats →
      compute_area_shot_count cell hex_ids shots_geojson ≤ feats.length) := by
  refine ⟨?_, ?_, ?_, ?_⟩
  · intro h
    subst h
    constructor
    · simp [compute_area_shot_count]
    · simp [update_shot_count, List.countP_eq_length_filter]
  · intro h
    subst h
    simp [compute_area_shot_count]
  · intro g hg hf
    subst hg
    simp [compute_area_shot_count, hf]
  · intro g feats hg hf
    subst hg
    cases he : hex_ids.isEmpty with
    | true => simp [compute_area_shot_count, he]
    | false =>
      simp only [compute_area_shot_count, he, Bool.false_eq_true, if_false, hf]
      exact List.length_filter_le _ _

theorem C10_area_shot_count_witness :
    compute_area_shot_count cellStub [] (some ⟨some [⟨0, 1⟩]⟩) = 0 ∧
    compute_area_shot_count cellStub [7] (some ⟨some [⟨0, 1⟩]⟩) ≤ 1 :=
  ⟨((C10_area_shot_count cellStub [] (some ⟨some [⟨0, 1⟩]⟩) [] 0).1 rfl).1,
   (C10_area_shot_count cellStub [7] (some ⟨some [⟨0, 1⟩]⟩) [] 0).2.2.2
     ⟨some [⟨0, 1⟩]⟩ [⟨0, 1⟩] rfl rfl⟩

/-- Embedding of `cache_stale` (app.py lines 56-58): true iff the cached file
does not exist (`none`) or its age `now - mtime` exceeds
`max_age_minutes * 60` seconds. Times are seconds as integers; the entry
carries the modification time and the cached table. -/
def cache_stale {α : Type} (now : ℤ) (entry : Option (ℤ × α)) (max_age_minutes : ℤ) : Bool :=
  match entry with
  | none => true
  | some (mtime, _) => decide (now - mtime > max_age_minutes * 60)

/-- The cached table of an entry (`pd.read_parquet(cache_path)`). -/
def cachedTable {α : Type} [Inhabited α] : Option (ℤ × α) → α
  | some (_, t) => t
  | none => default

/-- Embedding of `get_311_data` (app.py lines 140-156). The network fetch,
decode and normalization pipeline is the opaque `fetched` value; writing
`df.to_parquet(cache_path)` stamps the entry with the current time. Returns
the table, the new cache entry, and whether the network fetch ran. -/
def get_311_data {α : Type} [Inhabited α] (fetched : α) (force_refresh : Bool)
    (now : ℤ) (entry : Option (ℤ × α)) : α × Option (ℤ × α) × Bool :=
  if force_refresh = false ∧ cache_stale now entry 30 = false then
    (cachedTable entry, entry, false)
  else
    (fetched, some (now, fetched), true)

/-- C6: starting from a stale or absent cache entry, the first load fetches;
a second load within the 30-minute TTL window (and without the forced-refresh
flag) performs no further fetch and returns the artifact the first load
cached, so the two loads together perform exactly one network fetch. -/
theorem C6_cache_single_fetch {α : Type} [Inhabited α] (fetched : α) (t0 t1 : ℤ)
    (entry0 : Option (ℤ × α)) (hstale : cache_stale t0 entry0 30 = true)
    (h0 : t0 ≤ t1) (h1 : t1 - t0 ≤ 30 * 60) :
    (get_311_data fetched false t0 entry0).2.2 = true ∧
    (get_311_data fetched false t1 (get_311_data fetched false t0 entry0).2.1).2.2 = false ∧
    (get_311_data fetched false t1 (get_311_data fetched false t0 entry0).2.1).1
      = (get_311_data fetched false t0 entry0).1 := by
  have hfirst : get_311_data fetched false t0 entry0 = (fetched, some (t0, fetched), true) := by
    unfold get_311_data
    rw [if_neg]
    simp [hstale]
  have hfresh : cache_stale t1 (some (t0, fetched)) 30 = false := by
    simp only [cache_stale, decide_eq_false_iff_not, not_lt]
    omega
  have hsecond : get_311_data fetched false t1 (some (t0, fetched))
      = (fetched, some (t0, fetched), false) := by
    unfold get_311_data
    rw [if_pos ⟨rfl, hfresh⟩]
    rfl
  refine ⟨?_, ?_, ?_⟩
  · rw [hfirst]
  · rw [hfirst]
    show (get_311_data fetched false t1 (some (t0, fetched))).2.2 = false
    rw [hsecond]
  · rw [hfirst]
    show (get_311_data fetched false t1 (some (t0, fetched))).1 = fetched
    rw [hsecond]

theorem C6_cache_single_fetch_witness :
    (get_311_data (α := ℕ) 42 false 1000 none).2.2 = true ∧
    (get_311_data 42 false 2000 (get_311_data (α := ℕ) 42 false 1000 none).2.1).2.2 = false ∧
    (get_311_data 42 false 2000 (get_311_data (α := ℕ) 42 false 1000 none).2.1).1
      = (get_311_data (α := ℕ) 42 false 1000 none).1 :=
  C6_cache_single_fetch 42 1000 2000 none rfl (by decide) (by decide)

/-- The on-disk cache state of `get_shots_fired_data`: the shots entry and the
matched-homicides entry. -/
structure ShotsCache (α : Type) where
  shots : Option (ℤ × α)
  matched : Option (ℤ × α)

/-- Embedding of `get_shots_fired_data` (app.py lines 205-232). The two
fetch/decode/normalize pipelines are the opaque `fetchedShots` and
`fetchedMatched`; both cached artifacts are returned when neither is stale
(and no forced refresh), otherwise both are refetched and rewritten. The two
booleans record which of the two upstream fetches ran. -/
def get_shots_fired_data {α : Type} [Inhabited α] (fetchedShots fetchedMatched : α)
    (force_refresh : Bool) (now : ℤ) (st : ShotsCache α) :
    (α × α) × ShotsCache α × (Bool × Bool) :=
  if force_refresh = false ∧ cache_stale now st.shots 30 = false ∧
      cache_stale now st.matched 30 = false then
    ((cachedTable st.shots, cachedTable st.matched), st, (false, false))
  else
    ((fetchedShots, fetchedMatched),
      ⟨some (now, fetchedShots), some (now, fetchedMatched)⟩, (true, true))

/-- C7: shots and matched homicides share one staleness check — on every load
the two fetch decisions coincide; no fetch happens exactly when both cached
artifacts are fresh (and no forced refresh), in which case both tables come
from the cache, and otherwise both are refetched together. -/
theorem C7_joint_staleness {α : Type} [Inhabited α] (fetchedShots fetchedMatched : α)
    (force_refresh : Bool) (now : ℤ) (st : ShotsCache α) :
    ((get_shots_fired_data fetchedShots fetchedMatched force_refresh now st).2.2.1
      = (get_shots_fired_data fetchedShots fetchedMatched force_refresh now st).2.2.2) ∧
    ((get_shots_fired_data fetchedShots fetchedMatched force_refresh now st).2.2.1 = false ↔
      force_refresh = false ∧ cache_stale now st.shots 30 = false ∧
        cache_stale now st.matched 30 = false) ∧
    ((get_shots_fired_data fetchedShots fetchedMatched force_refresh now st).2.2.1 = false →
      (get_shots_fired_data fetchedShots fetchedMatched force_refresh now st).1
        = (cachedTable st.shots, cachedTable st.matched)) ∧
    ((get_shots_fired_data fetchedShots fetchedMatched force_refresh now st).2.2.1 = true →
      (get_shots_fired_data fetchedShots fetchedMatched force_refresh now st).1
        = (fetchedShots, fetchedMatched)) := by
  by_cases h : force_refresh = false ∧ cache_stale now st.shots 30 = false ∧
      cache_stale now st.matched 30 = false
  · have hd : get_shots_fired_data fetchedShots fetchedMatched force_refresh now st
        = ((cachedTable st.shots, cachedTable st.matched), st, (false, false)) := by
      unfold get_shots_fired_data
      rw [if_pos h]
    rw [hd]
    refine ⟨rfl, ?_, fun _ => rfl, fun hcontra => by simp at hcontra⟩
    simpa using h
  · have hd : get_shots_fired_data fetchedShots fetchedMatched force_refresh now st
        = ((fetchedShots, fetchedMatched),
            ⟨some (now, fetchedShots), some (now, fetchedMatched)⟩, (true, true)) := by
      unfold get_shots_fired_data
      rw [if_neg h]
    rw [hd]
    refine ⟨rfl, ?_, fun hcontra => by simp at hcontra, fun _ => rfl⟩
    simpa using h

theorem C7_joint_staleness_witness :
    (get_shots_fired_data (α := ℕ) 3 4 false 0 ⟨none, none⟩).1 = (3, 4) :=
  (C7_joint_staleness 3 4 false 0 ⟨none, none⟩).2.2.2 rfl

/-- A row of the fully-valid in-memory `df_311` table (post
`process_dataframe` and `dropna`): id, coordinates and month bucket. -/
structure Rec where
  rid : ℕ
  lat : ℚ
  lon : ℚ
  month : ℤ
  deriving DecidableEq

/-- One step of `hex_to_points.setdefault(hex_id, []).append(pid)` on the
insertion-ordered dict, represented as an association list. -/
def insertGroup (c : ℕ) (pid : ℕ) : List (ℕ × List ℕ) → List (ℕ × List ℕ)
  | [] => [(c, [pid])]
  | (c', pids) :: rest =>
    if c' = c then (c', pids ++ [pid]) :: rest
    else (c', pids) :: insertGroup c pid rest

/-- The `hex_to_points` dict built by iterating the rows in order. -/
def hexGroups (cellOf : Rec → ℕ) (rows : List Rec) : List (ℕ × List ℕ) :=
  rows.foldl (fun acc r => insertGroup (cellOf r) r.rid acc) []

lemma insertGroup_flatten_perm (c pid : ℕ) (l : List (ℕ × List ℕ)) :
    ((insertGroup c pid l).map Prod.snd).flatten.Perm
      ((l.map Prod.snd).flatten ++ [pid]) := by
  induction l with
  | nil => simp [insertGroup]
  | cons g rest ih =>
    obtain ⟨c', pids⟩ := g
    by_cases h : c' = c
    · simp only [insertGroup, if_pos h, List.map_cons, List.flatten_cons]
      rw [List.append_assoc pids [pid], List.append_assoc pids]
      exact (List.perm_append_comm).append_left pids
    · simp only [insertGroup, if_neg h, List.map_cons, List.flatten_cons]
      rw [List.append_assoc pids]
      exact ih.append_left pids

lemma hexGroups_foldl_perm (cellOf : Rec → ℕ) (rows : List Rec) :
    ∀ acc : List (ℕ × List ℕ),
      (((rows.foldl (fun acc r => insertGroup (cellOf r) r.rid acc) acc).map
          Prod.snd).flatten).Perm ((acc.map Prod.snd).flatten ++ rows.map Rec.rid) := by
  induction rows with
  | nil => intro acc; simp
  | cons r rest ih =>
    intro acc
    simp only [List.foldl_cons, List.map_cons]
    refine (ih (insertGroup (cellOf r) r.rid acc)).trans ?_
    refine ((insertGroup_flatten_perm (cellOf r) r.rid acc).append_right _).trans ?_
    rw [List.append_assoc]
    exact List.Perm.append_left _ (by simp)

/-- The ids grouped by `hexGroups`, flattened, are a permutation of the row
ids: every row lands in exactly one cell. -/
lemma hexGroups_perm (cellOf : Rec → ℕ) (rows : List Rec) :
    (((hexGroups cellOf rows).map Prod.snd).flatten).Perm (rows.map Rec.rid) := by
  have := hexGroups_foldl_perm cellOf rows []
  simpa using this

lemma insertGroup_keys (c pid : ℕ) (l : List (ℕ × List ℕ)) :
    (insertGroup c pid l).map Prod.fst
      = if c ∈ l.map Prod.fst then l.map Prod.fst else l.map Prod.fst ++ [c] := by
  induction l with
  | nil => simp [insertGroup]
  | cons g rest ih =>
    obtain ⟨c', pids⟩ := g
    by_cases h : c' = c
    · simp [insertGroup, if_pos h, h]
    · simp only [insertGroup, if_neg h, List.map_cons, ih, List.mem_cons]
      by_cases hmem : c ∈ rest.map Prod.fst
      · simp [hmem, Ne.symm h]
      · simp [hmem, Ne.symm h]

lemma insertGroup_keys_nodup (c pid : ℕ) (l : List (ℕ × List ℕ))
    (h : (l.map Prod.fst).Nodup) : ((insertGroup c pid l).map Prod.fst).Nodup := by
  rw [insertGroup_keys]
  by_cases hmem : c ∈ l.map Prod.fst
  · simpa [hmem] using h
  · simp only [hmem, if_false]
    simpa [List.nodup_append, hmem] using h

lemma hexGroups_foldl_keys_nodup (cellOf : Rec → ℕ) (rows : List Rec) :
    ∀ acc : List (ℕ × List ℕ), (acc.map Prod.fst).Nodup →
      (((rows.foldl (fun acc r => insertGroup (cellOf r) r.rid acc) acc).map
          Prod.fst)).Nodup := by
  induction rows with
  | nil => intro acc h; simpa using h
  | cons r rest ih =>
    intro acc h
    exact ih _ (insertGroup_keys_nodup (cellOf r) r.rid acc h)

/-- Distinct features carry distinct hex ids. -/
lemma hexGroups_keys_nodup (cellOf : Rec → ℕ) (rows : List Rec) :
    ((hexGroups cellOf rows).map Prod.fst).Nodup :=
  hexGroups_foldl_keys_nodup cellOf rows [] (by simp)

lemma insertGroup_snd_ne_nil (c pid : ℕ) (l : List (ℕ × List ℕ))
    (h : ∀ g ∈ l, g.2 ≠ []) : ∀ g ∈ insertGroup c pid l, g.2 ≠ [] := by
  induction l with
  | nil =>
    intro g hg
    simp only [insertGroup, List.mem_singleton] at hg
    subst hg
    simp
  | cons hd rest ih =>
    obtain ⟨c', pids⟩ := hd
    intro g hg
    by_cases hc : c' = c
    · simp only [insertGroup, if_pos hc, List.mem_cons] at hg
      rcases hg with hg | hg
      · subst hg; simp
      · exact h g (List.mem_cons_of_mem _ hg)
    · simp only [insertGroup, if_neg hc, List.mem_cons] at hg
      rcases hg with hg | hg
      · subst hg; exact h _ (List.mem_cons_self _ _)
      · exact ih (fun g' hg' => h g' (List.mem_cons_of_mem _ hg')) g hg

lemma hexGroups_foldl_snd_ne_nil (cellOf : Rec → ℕ) (rows : List Rec) :
    ∀ acc : List (ℕ × List ℕ), (∀ g ∈ acc, g.2 ≠ []) →
      ∀ g ∈ rows.foldl (fun acc r => insertGroup (cellOf r) r.rid acc) acc, g.2 ≠ [] := by
  induction rows with
  | nil => intro acc h; simpa using h
  | cons r rest ih =>
    intro acc h
    exact ih _ (insertGroup_snd_ne_nil (cellOf r) r.rid acc h)

/-- Every group holds at least one record id. -/
lemma hexGroups_snd_ne_nil (cellOf : Rec → ℕ) (rows : List Rec) :
    ∀ g ∈ hexGroups cellOf rows, g.2 ≠ [] :=
  hexGroups_foldl_snd_ne_nil cellOf rows [] (by simp)

lemma insertGroup_ne_nil (c pid : ℕ) (l : List (ℕ × List ℕ)) :
    insertGroup c pid l ≠ [] := by
  cases l with
  | nil => simp [insertGroup]
  | cons g rest =>
    obtain ⟨c', pids⟩ := g
    by_cases h : c' = c <;> simp [insertGroup, h]

lemma hexGroups_foldl_ne_nil (cellOf : Rec → ℕ) (rows : List Rec) :
    ∀ acc : List (ℕ × List ℕ), acc ≠ [] →
      rows.foldl (fun acc r => insertGroup (cellOf r) r.rid acc) acc ≠ [] := by
  induction rows with
  | nil => intro acc h; simpa using h
  | cons r rest ih =>
    intro acc _
    exact ih _ (insertGroup_ne_nil (cellOf r) r.rid acc)

/-- A nonempty table yields a nonempty group dict. -/
lemma hexGroups_ne_nil (cellOf : Rec → ℕ) (rows : List Rec) (h : rows ≠ []) :
    hexGroups cellOf rows ≠ [] := by
  cases rows with
  | nil => exact absurd rfl h
  | cons r rest =>
    unfold hexGroups
    simp only [List.foldl_cons]
    exact hexGroups_foldl_ne_nil cellOf rest _ (insertGroup_ne_nil _ _ _)

/-- A per-month hex feature emitted by `update_map_data`: in per-month mode
the `value` property is the raw count `len(point_ids)` and the feature carries
its contained record ids. Geometry fields (boundary ring, centroid) are not
needed by any claim and omitted. -/
structure MonthFeature where
  hex_id : ℕ
  value : ℕ
  ids : List ℕ
  deriving DecidableEq

/-- Embedding of the hex-aggregation part of the `update_map_data` callback
(app.py lines 764-803): filter `df_311` to the selected month; if the month
slice is empty return no features; otherwise group record ids by
`h3.latlng_to_cell(lat, lon, 10)` in row order and emit one feature per cell
with the raw count and the id list. -/
def update_map_data (cell : ℚ → ℚ → ℕ → ℕ) (df_311 : List Rec) (selected_month : ℤ) :
    List MonthFeature :=
  let df_month := df_311.filter (fun r => decide (r.month = selected_month))
  if df_month.isEmpty then []
  else
    (hexGroups (fun r => cell r.lat r.lon 10) df_month).map
      (fun g => MonthFeature.mk g.1 g.2.length g.2)

/-- C1: for a non-empty month slice with distinct record ids, per-month hex
aggregation at resolution 10 emits features whose counts sum to the number of
records of the month, whose id lists are pairwise disjoint and together are
exactly (a permutation of) the month's record ids, and whose hex ids are
distinct (each record mapping to exactly one cell). -/
theorem C1_month_hex_partition (cell : ℚ → ℚ → ℕ → ℕ) (df_311 : List Rec)
    (selected_month : ℤ)
    (hne : df_311.filter (fun r => decide (r.month = selected_month)) ≠ [])
    (hnd : ((df_311.filter (fun r => decide (r.month = selected_month))).map Rec.rid).Nodup) :
    ((update_map_data cell df_311 selected_month).map MonthFeature.value).sum
      = (df_311.filter (fun r => decide (r.month = selected_month))).length ∧
    ((update_map_data cell df_311 selected_month).map MonthFeature.ids).flatten.Perm
      ((df_311.filter (fun r => decide (r.month = selected_month))).map Rec.rid) ∧
    ((update_map_data cell df_311 selected_month).map MonthFeature.ids).Pairwise
      List.Disjoint ∧
    ((update_map_data cell df_311 selected_month).map MonthFeature.hex_id).Nodup := by
  set dfm := df_311.filter (fun r => decide (r.month = selected_month)) with hdfm
  have hemp : dfm.isEmpty = false := by
    cases hd : dfm with
    | nil => exact absurd hd hne
    | cons a l => simp [hd]
  have hupd : update_map_data cell df_311 selected_month
      = (hexGroups (fun r => cell r.lat r.lon 10) dfm).map
          (fun g => MonthFeature.mk g.1 g.2.length g.2) := by
    show (if dfm.isEmpty = true then []
        else (hexGroups (fun r => cell r.lat r.lon 10) dfm).map
          (fun g => MonthFeature.mk g.1 g.2.length g.2))
      = (hexGroups (fun r => cell r.lat r.lon 10) dfm).map
          (fun g => MonthFeature.mk g.1 g.2.length g.2)
    rw [hemp]
    simp
  have hids : (update_map_data cell df_311 selected_month).map MonthFeature.ids
      = (hexGroups (fun r => cell r.lat r.lon 10) dfm).map Prod.snd := by
    rw [hupd, List.map_map]
    rfl
  have hperm : ((update_map_data cell df_311 selected_month).map MonthFeature.ids).flatten.Perm
      (dfm.map Rec.rid) := by
    rw [hids]
    exact hexGroups_perm _ dfm
  have hflatnd : ((update_map_data cell df_311 selected_month).map MonthFeature.ids).flatten.Nodup :=
    hperm.nodup_iff.mpr hnd
  refine ⟨?_, hperm, (List.nodup_flatten.mp hflatnd).2, ?_⟩
  · have hvals : (update_map_data cell df_311 selected_month).map MonthFeature.value
        = ((update_map_data cell df_311 selected_month).map MonthFeature.ids).map
            List.length := by
      rw [hupd]
      simp only [List.map_map]
      apply List.map_congr_left
      intro g _
      rfl
    rw [hvals, ← List.length_flatten, hperm.length_eq, List.length_map]
  · rw [hupd, List.map_map]
    have : (MonthFeature.hex_id ∘ fun g : ℕ × List ℕ => MonthFeature.mk g.1 g.2.length g.2)
        = Prod.fst := rfl
    rw [this]
    exact hexGroups_keys_nodup _ dfm

/-- Concrete 311 table for the C1 witness: three December rows (two sharing a
cell under `cellStub`) and one November row. -/
def recsW : List Rec :=
  [⟨1, 1, 0, 12⟩, ⟨2, 2, 0, 12⟩, ⟨3, 2, 0, 12⟩, ⟨4, 1, 0, 11⟩]

theorem C1_month_hex_partition_witness :
    ((update_map_data cellStub recsW 12).map MonthFeature.value).sum
      = (recsW.filter (fun r => decide (r.month = 12))).length ∧
    ((update_map_data cellStub recsW 12).map MonthFeature.ids).flatten.Perm
      ((recsW.filter (fun r => decide (r.month = 12))).map Rec.rid) ∧
    ((update_map_data cellStub recsW 12).map MonthFeature.ids).Pairwise List.Disjoint ∧
    ((update_map_data cellStub recsW 12).map MonthFeature.hex_id).Nodup :=
  C1_month_hex_partition cellStub recsW 12 (by decide) (by decide)

/-- An all-time hex feature emitted by `get_all_hexbin_data`: normalized
`value`, raw `count`. Geometry fields are claim-irrelevant and omitted. -/
structure AllFeature where
  hex_id : ℕ
  value : ℚ
  count : ℕ
  deriving DecidableEq

/-- Python's `max` over a list of counts (0 on an empty list, which the code
never queries). -/
def listMax : List ℕ → ℕ
  | [] => 0
  | x :: xs => max x (listMax xs)

lemma le_listMax {x : ℕ} {l : List ℕ} (h : x ∈ l) : x ≤ listMax l := by
  induction l with
  | nil => cases h
  | cons y ys ih =>
    rcases List.mem_cons.mp h with h | h
    · subst h
      exact le_max_left _ _
    · exact le_trans (ih h) (le_max_right _ _)

/-- Embedding of the `get_all_hexbin_data` callback (app.py lines 1074-1109):
on the full (non-empty) `df_311`, group ids by cell at resolution 10, take
`max_value = max(len(points) for cell)` (with the literal fallback 1 for an
empty dict), and emit `value = 1 + (count / max_value) * 9` per cell. -/
def get_all_hexbin_data (cell : ℚ → ℚ → ℕ → ℕ) (df_311 : List Rec) : List AllFeature :=
  if df_311.isEmpty then []
  else
    let groups := hexGroups (fun r => cell r.lat r.lon 10) df_311
    let max_value : ℕ :=
      if groups.isEmpty then 1 else listMax (groups.map (fun g => g.2.length))
    groups.map (fun g =>
      AllFeature.mk g.1 (1 + ((g.2.length : ℚ) / (max_value : ℚ)) * 9) g.2.length)

/-- C3 (amended): every all-time feature's value is `1 + (count / max) * 9`
where `max` is the maximum count across cells; the maximum-count feature has
value 10; a count-1 feature has value `1 + 9 / max`; an empty table yields an
empty feature list (so no division by zero ever occurs); and every nonempty
cell has value strictly greater than 1 — the least-populated nonempty cell
maps to `1 + 9 * (count / max)`, not to 1. -/
theorem C3_alltime_normalization (cell : ℚ → ℚ → ℕ → ℕ) (df_311 : List Rec) :
    (df_311 = [] → get_all_hexbin_data cell df_311 = []) ∧
    (∀ f ∈ get_all_hexbin_data cell df_311,
      1 ≤ f.count ∧
      f.count ≤ listMax ((get_all_hexbin_data cell df_311).map AllFeature.count) ∧
      f.value = 1 + ((f.count : ℚ) /
        ((listMax ((get_all_hexbin_data cell df_311).map AllFeature.count) : ℕ) : ℚ)) * 9) ∧
    (∀ f ∈ get_all_hexbin_data cell df_311,
      f.count = listMax ((get_all_hexbin_data cell df_311).map AllFeature.count) →
        f.value = 10) ∧
    (∀ f ∈ get_all_hexbin_data cell df_311,
      f.count = 1 →
        f.value = 1 + 9 /
          ((listMax ((get_all_hexbin_data cell df_311).map AllFeature.count) : ℕ) : ℚ)) ∧
    (∀ f ∈ get_all_hexbin_data cell df_311, 1 < f.value) := by
  by_cases hdf : df_311 = []
  · subst hdf
    refine ⟨fun _ => rfl, ?_, ?_, ?_, ?_⟩ <;> intro f hf <;>
      simp [get_all_hexbin_data] at hf
  · have hemp : df_311.isEmpty = false := by
      cases hd : df_311 with
      | nil => exact absurd hd hdf
      | cons a l => simp [hd]
    have hgne : hexGroups (fun r => cell r.lat r.lon 10) df_311 ≠ [] :=
      hexGroups_ne_nil _ df_311 hdf
    have hgemp : (hexGroups (fun r => cell r.lat r.lon 10) df_311).isEmpty = false := by
      cases hd : hexGroups (fun r => cell r.lat r.lon 10) df_311 with
      | nil => exact absurd hd hgne
      | cons a l => simp [hd]
    have hF : get_all_hexbin_data cell df_311
        = (hexGroups (fun r => cell r.lat r.lon 10) df_311).map (fun g =>
            AllFeature.mk g.1
              (1 + ((g.2.length : ℚ) /
                ((listMax ((hexGroups (fun r => cell r.lat r.lon 10) df_311).map
                  (fun g => g.2.length)) : ℕ) : ℚ)) * 9) g.2.length) := by
      show (if df_311.isEmpty = true then [] else _) = _
      rw [hemp]
      simp only [Bool.false_eq_true, if_false, hgemp]
    have hcounts : (get_all_hexbin_data cell df_311).map AllFeature.count
        = (hexGroups (fun r => cell r.lat r.lon 10) df_311).map (fun g => g.2.length) := by
      rw [hF, List.map_map]
      apply List.map_congr_left
      intro g _
      rfl
    have hone : ∀ f ∈ get_all_hexbin_data cell df_311, 1 ≤ f.count := by
      intro f hf
      rw [hF] at hf
      obtain ⟨g, hg, rfl⟩ := List.mem_map.mp hf
      have hne2 := hexGroups_snd_ne_nil (fun r => cell r.lat r.lon 10) df_311 g hg
      exact List.length_pos.mpr hne2
    have hval : ∀ f ∈ get_all_hexbin_data cell df_311,
        f.value = 1 + ((f.count : ℚ) /
          ((listMax ((get_all_hexbin_data cell df_311).map AllFeature.count) : ℕ) : ℚ)) * 9 := by
      intro f hf
      rw [hcounts]
      rw [hF] at hf
      obtain ⟨g, hg, rfl⟩ := List.mem_map.mp hf
      rfl
    have hle : ∀ f ∈ get_all_hexbin_data cell df_311,
        f.count ≤ listMax ((get_all_hexbin_data cell df_311).map AllFeature.count) := by
      intro f hf
      exact le_listMax (List.mem_map_of_mem AllFeature.count hf)
    have hMpos : ∀ f ∈ get_all_hexbin_data cell df_311,
        0 < listMax ((get_all_hexbin_data cell df_311).map AllFeature.count) := by
      intro f hf
      exact lt_of_lt_of_le (hone f hf) (hle f hf)
    refine ⟨fun h => absurd h hdf, fun f hf => ⟨hone f hf, hle f hf, hval f hf⟩,
      ?_, ?_, ?_⟩
    · intro f hf hc
      have h0 : ((listMax ((get_all_hexbin_data cell df_311).map AllFeature.count) : ℕ) : ℚ)
          ≠ 0 := by
        exact_mod_cast Nat.pos_iff_ne_zero.mp (hMpos f hf)
      rw [hval f hf, hc, div_self h0]
      norm_num
    · intro f hf hc
      rw [hval f hf, hc]
      push_cast
      ring
    · intro f hf
      have h0 : (0 : ℚ)
          < ((listMax ((get_all_hexbin_data cell df_311).map AllFeature.count) : ℕ) : ℚ) := by
        exact_mod_cast hMpos f hf
      have hc : (0 : ℚ) < (f.count : ℚ) := by
        exact_mod_cast hone f hf
      rw [hval f hf]
      have : 0 < ((f.count : ℚ) /
          ((listMax ((get_all_hexbin_data cell df_311).map AllFeature.count) : ℕ) : ℚ)) * 9 :=
        mul_pos (div_pos hc h0) (by norm_num)
      linarith

/-- Concrete table for the C3 counterexample: one record alone in a cell and
three sharing another cell under `cellStub`. -/
def recsC3 : List Rec :=
  [⟨1, 0, 0, 0⟩, ⟨2, 1, 0, 0⟩, ⟨3, 1, 0, 0⟩, ⟨4, 1, 0, 0⟩]

lemma allhex_concrete :
    get_all_hexbin_data cellStub recsC3
      = [AllFeature.mk 0 4 1, AllFeature.mk 1 10 3] := by
  have h1 : get_all_hexbin_data cellStub recsC3
      = [AllFeature.mk 0 (1 + ((1 : ℚ) / 3) * 9) 1,
         AllFeature.mk 1 (1 + ((3 : ℚ) / 3) * 9) 3] := by
    simp [get_all_hexbin_data, hexGroups, insertGroup, cellStub, listMax, recsC3]
  rw [h1]
  norm_num

/-- C3 counterexample: on a concrete table the least-populated nonempty cell
(count 1, against a maximum of 3) gets value 4, not the value 1 the claim
asserts for the least-populated nonempty cell. -/
theorem C3_counterexample :
    ∃ f ∈ get_all_hexbin_data cellStub recsC3,
      (∀ g ∈ get_all_hexbin_data cellStub recsC3, f.count ≤ g.count) ∧ f.value ≠ 1 := by
  refine ⟨AllFeature.mk 0 4 1, ?_, ?_, ?_⟩
  · rw [allhex_concrete]
    simp
  · intro g hg
    rw [allhex_concrete] at hg
    rcases List.mem_cons.mp hg with rfl | hg
    · exact le_refl _
    rcases List.mem_cons.mp hg with rfl | hg
    · show (1 : ℕ) ≤ 3
      norm_num
    · cases hg
  · norm_num

theorem C3_alltime_normalization_witness :
    (AllFeature.mk 1 10 3).value = 10 :=
  (C3_alltime_normalization cellStub recsC3).2.2.1 (AllFeature.mk 1 10 3)
    (by rw [allhex_concrete]; simp)
    (by rw [allhex_concrete]; decide)

/-- First index at which the two-character token `a b` occurs in the buffer
(Python `buffer.find(tok)` for the two-character tokens the scanner uses). -/
def findTok (a b : Char) : List Char → Option ℕ
  | [] => none
  | [_] => none
  | c :: d :: rest =>
    if c = a ∧ d = b then some 0
    else (findTok a b (d :: rest)).map (· + 1)

/-- Python `tok in buffer` for a two-character token. -/
def hasTok (a b : Char) (s : List Char) : Bool :=
  (findTok a b s).isSome

/-- Python `buffer.replace(tok, "")` for a two-character token: left-to-right,
non-overlapping, resuming after each removal. -/
def removeTok (a b : Char) : List Char → List Char
  | [] => []
  | [c] => [c]
  | c :: d :: rest =>
    if c = a ∧ d = b then removeTok a b rest else c :: removeTok a b (d :: rest)

/-- Python whitespace for `strip`/`rstrip` (the characters the payload can
contain). -/
def isWs (c : Char) : Bool :=
  c = ' ' ∨ c = '\t' ∨ c = '\n' ∨ c = '\r'

/-- Python `s.lstrip()`. -/
def lstripW (s : List Char) : List Char := s.dropWhile isWs

/-- Python `s.rstrip()`. -/
def rstripW (s : List Char) : List Char := (s.reverse.dropWhile isWs).reverse

/-- Python `s.strip()`. -/
def stripW (s : List Char) : List Char := lstripW (rstripW s)

/-- Error raised by the modelled `pd.read_json`. `eof_or_empty` records
whether the exception message matches the substrings `stream_to_dataframe`
tests for ("Unexpected end of file" / "Empty data passed"). Modelled from the
spec: the parser itself is the external pandas/ujson library; per the spec the
empty result must be distinguished from a genuinely malformed payload, so the
flag is true exactly when the text holds no data at all (blank, or a bare
opening bracket), and malformed non-empty text raises with the flag false,
making it eligible for the best-effort repair. -/
structure ReadJsonErr where
  eof_or_empty : Bool
  deriving DecidableEq

/-- Whether `e` can stand as one row object of the modelled JSON-array
grammar: non-blank, and free of the separator and delimiter characters. The
real payload rows are JSON objects; the claims treat rows as opaque atoms, so
the model restricts elements to atoms containing no ',', '[', ']' or newline. -/
def validElem (e : List Char) : Bool :=
  decide (stripW e ≠ []) &&
    e.all (fun c => !(c = ',') && !(c = '[') && !(c = ']') && !(c = '\n'))

/-- Split a text on every ',' (top level of the modelled grammar). -/
def splitComma : List Char → List (List Char)
  | [] => [[]]
  | c :: rest =>
    if c = ',' then [] :: splitComma rest
    else
      match splitComma rest with
      | [] => [[c]]
      | g :: gs => (c :: g) :: gs

/-- Modelled from the spec: `pd.read_json(..., orient="records")` of the
external pandas library, on the modelled grammar — trims the text, returns the
rows of a well-formed array (`[]` giving zero rows), raises with
`eof_or_empty` for a blank text or a bare `[`, and raises an ordinary parse
failure otherwise. -/
def read_json (s : List Char) : Except ReadJsonErr (List (List Char)) :=
  let t := stripW s
  if t = [] ∨ t = ['['] then .error ⟨true⟩
  else if t = ['[', ']'] then .ok []
  else if t.head? = some '[' ∧ t.getLast? = some ']' then
    let parts := splitComma ((t.drop 1).dropLast)
    if parts.all validElem then .ok parts else .error ⟨false⟩
  else .error ⟨false⟩

/-- The scanner state of `stream_to_dataframe`: the `json_data` accumulator,
the pending `buffer`, and the `in_array` flag. -/
structure ScanState where
  out : List Char
  buffer : List Char
  in_array : Bool
  deriving DecidableEq

/-- The `while in_array:` loop of `stream_to_dataframe` (app.py lines 87-103):
extract an element at each `,\n`, close at `\n]` (writing the trailing object
only if non-blank) and stop, or stop when neither token is present. Fuel
decreases once per extracted element; `processChunk` supplies the buffer
length, which bounds the iteration count because every extraction removes at
least two characters. -/
def scanLoop : ℕ → ScanState → ScanState
  | 0, st => st
  | fuel + 1, st =>
    if st.in_array = false then st
    else
      match findTok ',' '\n' st.buffer with
      | some i =>
        scanLoop fuel ⟨st.out ++ st.buffer.take i ++ [','], st.buffer.drop (i + 2), true⟩
      | none =>
        match findTok '\n' ']' st.buffer with
        | some i =>
          let objText := st.buffer.take i
          ⟨st.out ++ (if stripW objText = [] then [] else objText) ++ [']'],
            st.buffer.drop (i + 2), false⟩
        | none => st

/-- One iteration of the chunk loop of `stream_to_dataframe` (app.py lines
74-103): skip empty chunks, append to the buffer, open the array when `[\n`
appears (writing `[` and deleting every `[\n` occurrence), then run the
extraction loop. -/
def processChunk (st : ScanState) (chunk : List Char) : ScanState :=
  if chunk = [] then st
  else
    let buf := st.buffer ++ chunk
    if st.in_array = false ∧ hasTok '[' '\n' buf then
      scanLoop (removeTok '[' '\n' buf).length ⟨st.out ++ ['['], removeTok '[' '\n' buf, true⟩
    else
      scanLoop buf.length ⟨st.out, buf, st.in_array⟩

/-- The `json_data` text accumulated over the whole chunk stream. -/
def scanStream (chunks : List (List Char)) : List Char :=
  (chunks.foldl processChunk ⟨[], [], false⟩).out

/-- The parse/repair tail of `stream_to_dataframe` (app.py lines 105-124) on
the accumulated text: parse; on an end-of-file/empty failure return the empty
table; otherwise, if the text is non-blank and not a bare `[` or `[]`, repair
(strip one trailing comma after `rstrip`, or append the missing bracket) and
reparse, surfacing the original failure if the reparse also fails. -/
def decodeText (jd : List Char) : Except ReadJsonErr (List (List Char)) :=
  match read_json jd with
  | .ok rows => .ok rows
  | .error e =>
    if e.eof_or_empty then .ok []
    else
      if stripW jd ≠ [] ∧ stripW jd ≠ ['['] ∧ stripW jd ≠ ['[', ']'] then
        match read_json
          (if (rstripW jd).getLast? ≠ some ']' then
            (if (rstripW jd).getLast? = some ',' then (rstripW jd).dropLast ++ [']']
             else jd ++ [']'])
           else jd) with
        | .ok rows => .ok rows
        | .error _ => .error e
      else .error e

/-- Embedding of the whole decode path of `stream_to_dataframe` (app.py lines
61-124), from the chunk stream to the decoded rows or the decode error. The
HTTP transport (status check, header) is outside the decoder and not
modelled. -/
def stream_decode (chunks : List (List Char)) : Except ReadJsonErr (List (List Char)) :=
  decodeText (scanStream chunks)

lemma processChunk_nil (st : ScanState) : processChunk st [] = st := rfl

/-- Scanner states reached while consuming the streamed empty array `[\n]`,
by number of characters consumed. -/
def stA : ℕ → ScanState
  | 0 => ⟨[], [], false⟩
  | 1 => ⟨[], ['['], false⟩
  | 2 => ⟨['['], [], true⟩
  | _ => ⟨['['], [']'], true⟩

lemma stA_step (n : ℕ) (c : List Char) (hn : n ≤ 3)
    (hlen : n + c.length ≤ 3)
    (hc : c = (List.drop n ['[', '\n', ']']).take c.length) :
    processChunk (stA n) c = stA (n + c.length) := by
  interval_cases n
  · rcases c with _ | ⟨a, _ | ⟨b, _ | ⟨d, tail⟩⟩⟩
    · rfl
    · simp at hc
      subst hc
      decide
    · simp at hc
      obtain ⟨rfl, rfl⟩ := hc
      decide
    · simp only [List.length_cons] at hlen
      have ht : tail = [] := by
        rw [← List.length_eq_zero]
        omega
      subst ht
      simp at hc
      obtain ⟨rfl, rfl, rfl⟩ := hc
      decide
  · rcases c with _ | ⟨a, _ | ⟨b, _ | ⟨d, tail⟩⟩⟩
    · rfl
    · simp at hc
      subst hc
      decide
    · simp at hc
      obtain ⟨rfl, rfl⟩ := hc
      decide
    · simp only [List.length_cons] at hlen
      exfalso
      omega
  · rcases c with _ | ⟨a, _ | ⟨b, tail⟩⟩
    · rfl
    · simp at hc
      subst hc
      decide
    · simp only [List.length_cons] at hlen
      exfalso
      omega
  · rcases c with _ | ⟨a, tail⟩
    · rfl
    · simp only [List.length_cons] at hlen
      exfalso
      omega

lemma scanA_fold : ∀ (cs : List (List Char)) (n : ℕ), n ≤ 3 →
    cs.flatten = List.drop n ['[', '\n', ']'] →
    (cs.foldl processChunk (stA n)).out = ['['] := by
  intro cs
  induction cs with
  | nil =>
    intro n hn hflat
    have h3 : n = 3 := by
      have hl := congrArg List.length hflat
      simp [List.length_drop] at hl
      omega
    subst h3
    rfl
  | cons c rest ih =>
    intro n hn hflat
    simp only [List.flatten_cons] at hflat
    have hcl : c.length + rest.flatten.length = 3 - n := by
      have hl := congrArg List.length hflat
      simpa [List.length_drop] using hl
    have hlen : n + c.length ≤ 3 := by omega
    have hc : c = (List.drop n ['[', '\n', ']']).take c.length := by
      rw [← hflat, List.take_left]
    have hrest : rest.flatten = List.drop (n + c.length) ['[', '\n', ']'] := by
      have h1 : rest.flatten = (c ++ rest.flatten).drop c.length := (List.drop_left c _).symm
      rw [h1, hflat, List.drop_drop]
    simp only [List.foldl_cons]
    rw [stA_step n c hn hlen hc]
    exact ih (n + c.length) (by omega) hrest

/-- Scanner states reached while consuming the bare `[]` payload (the array
never opens: no `[\n` appears). -/
def stB (n : ℕ) : ScanState := ⟨[], List.take n ['[', ']'], false⟩

lemma stB_step (n : ℕ) (c : List Char) (hn : n ≤ 2) (hlen : n + c.length ≤ 2)
    (hc : c = (List.drop n ['[', ']']).take c.length) :
    processChunk (stB n) c = stB (n + c.length) := by
  interval_cases n
  · rcases c with _ | ⟨a, _ | ⟨b, tail⟩⟩
    · rfl
    · simp at hc
      subst hc
      decide
    · simp only [List.length_cons] at hlen
      have ht : tail = [] := by
        rw [← List.length_eq_zero]
        omega
      subst ht
      simp at hc
      obtain ⟨rfl, rfl⟩ := hc
      decide
  · rcases c with _ | ⟨a, tail⟩
    · rfl
    · simp only [List.length_cons] at hlen
      have ht : tail = [] := by
        rw [← List.length_eq_zero]
        omega
      subst ht
      simp at hc
      subst hc
      decide
  · rcases c with _ | ⟨a, tail⟩
    · rfl
    · simp only [List.length_cons] at hlen
      exfalso
      omega

lemma scanB_fold : ∀ (cs : List (List Char)) (n : ℕ), n ≤ 2 →
    cs.flatten = List.drop n ['[', ']'] →
    (cs.foldl processChunk (stB n)).out = [] := by
  intro cs
  induction cs with
  | nil =>
    intro n hn hflat
    rfl
  | cons c rest ih =>
    intro n hn hflat
    simp only [List.flatten_cons] at hflat
    have hcl : c.length + rest.flatten.length = 2 - n := by
      have hl := congrArg List.length hflat
      simpa [List.length_drop] using hl
    have hlen : n + c.length ≤ 2 := by omega
    have hc : c = (List.drop n ['[', ']']).take c.length := by
      rw [← hflat, List.take_left]
    have hrest : rest.flatten = List.drop (n + c.length) ['[', ']'] := by
      have h1 : rest.flatten = (c ++ rest.flatten).drop c.length := (List.drop_left c _).symm
      rw [h1, hflat, List.drop_drop]
    simp only [List.foldl_cons]
    rw [stB_step n c hn hlen hc]
    exact ih (n + c.length) (by omega) hrest

/-- C9: decoding any chunking of an empty response body, of the bare `[]`
payload, or of the streamed empty array `[\n]` yields zero rows without an
error, while a genuinely malformed payload (here `[\n5,,\n]`) raises a decode
error that is not the empty case. -/
theorem C9_empty_stream_decode (chunks : List (List Char)) :
    (chunks.flatten = [] → stream_decode chunks = .ok []) ∧
    (chunks.flatten = ['[', ']'] → stream_decode chunks = .ok []) ∧
    (chunks.flatten = ['[', '\n', ']'] → stream_decode chunks = .ok []) ∧
    stream_decode ["[\n5,,\n]".toList] = .error ⟨false⟩ := by
  refine ⟨?_, ?_, ?_, by rfl⟩
  · intro h
    have hall : ∀ c ∈ chunks, c = [] := List.flatten_eq_nil_iff.mp h
    have hfold : chunks.foldl processChunk ⟨[], [], false⟩ = ⟨[], [], false⟩ := by
      clear h
      induction chunks with
      | nil => rfl
      | cons c rest ih =>
        have hc := hall c (List.mem_cons_self c rest)
        subst hc
        simp only [List.foldl_cons, processChunk_nil]
        exact ih (fun c hc => hall c (List.mem_cons_of_mem _ hc))
    show decodeText (scanStream chunks) = .ok []
    unfold scanStream
    rw [hfold]
    exact rfl
  · intro h
    have hout : (chunks.foldl processChunk (stB 0)).out = [] :=
      scanB_fold chunks 0 (by omega) (by simpa using h)
    show decodeText (scanStream chunks) = .ok []
    unfold scanStream
    have hscan : (chunks.foldl processChunk ⟨[], [], false⟩).out = [] := hout
    rw [hscan]
    exact rfl
  · intro h
    have hout : (chunks.foldl processChunk (stA 0)).out = ['['] :=
      scanA_fold chunks 0 (by omega) (by simpa using h)
    show decodeText (scanStream chunks) = .ok []
    unfold scanStream
    have hscan : (chunks.foldl processChunk ⟨[], [], false⟩).out = ['['] := hout
    rw [hscan]
    exact rfl

theorem C9_empty_stream_decode_witness :
    stream_decode ["[\n]".toList] = .ok [] :=
  (C9_empty_stream_decode ["[\n]".toList]).2.2.1 rfl

/-- The element texts joined by the `,\n` separators of the streamed array
format. -/
def interElems : List (List Char) → List Char
  | [] => []
  | [e] => e
  | e :: e2 :: rest => e ++ ',' :: '\n' :: interElems (e2 :: rest)

/-- The element texts joined by plain commas (the shape `json_data` takes
after scanning). -/
def joinComma : List (List Char) → List Char
  | [] => []
  | [e] => e
  | e :: e2 :: rest => e ++ ',' :: joinComma (e2 :: rest)

/-- What the extraction loop writes to `json_data` from the elements: every
element terminated by a `,\n` separator, each followed by a comma; the final
element has no terminator and is never written. -/
def scanOut : List (List Char) → List Char
  | [] => []
  | [_] => []
  | e :: e2 :: rest => e ++ ',' :: scanOut (e2 :: rest)

/-- The text the scanner still holds in `buffer` at stream end: the final,
unterminated element. -/
def lastTail : List (List Char) → List Char
  | [] => []
  | [e] => e
  | _ :: e2 :: rest => lastTail (e2 :: rest)

/-- A record stream that is missing the closing bracket but is otherwise
well-formed: `[\n` then the `,\n`-separated elements. -/
def truncStream (es : List (List Char)) : List Char :=
  '[' :: '\n' :: interElems es

/-- The well-formed version of the same stream: the closing `\n]` present. -/
def wfStream (es : List (List Char)) : List Char :=
  '[' :: '\n' :: (interElems es ++ ['\n', ']'])

lemma validElem_props {e : List Char} (h : validElem e = true) :
    stripW e ≠ [] ∧ ∀ c ∈ e, c ≠ ',' ∧ c ≠ '[' ∧ c ≠ ']' ∧ c ≠ '\n' := by
  simp only [validElem, Bool.and_eq_true, decide_eq_true_eq, List.all_eq_true] at h
  refine ⟨h.1, fun c hc => ?_⟩
  have h2 := h.2 c hc
  simp only [Bool.and_eq_true, Bool.not_eq_true', decide_eq_false_iff_not] at h2
  exact ⟨h2.1.1.1, h2.1.1.2, h2.1.2, h2.2⟩

lemma validElem_ne_nil {e : List Char} (h : validElem e = true) : e ≠ [] := by
  intro h0
  apply (validElem_props h).1
  rw [h0]
  rfl

lemma mem_interElems {c : Char} : ∀ {es : List (List Char)}, c ∈ interElems es →
    (∃ e ∈ es, c ∈ e) ∨ c = ',' ∨ c = '\n' := by
  intro es
  induction es with
  | nil => intro h; cases h
  | cons e rest ih =>
    cases rest with
    | nil =>
      intro h
      exact Or.inl ⟨e, by simp, h⟩
    | cons e2 rest2 =>
      intro h
      simp only [interElems] at h
      rcases List.mem_append.mp h with h | h
      · exact Or.inl ⟨e, by simp, h⟩
      · rcases List.mem_cons.mp h with rfl | h
        · exact Or.inr (Or.inl rfl)
        · rcases List.mem_cons.mp h with rfl | h
          · exact Or.inr (Or.inr rfl)
          · rcases ih h with ⟨e3, he3, hc⟩ | h
            · exact Or.inl ⟨e3, by simp [he3], hc⟩
            · exact Or.inr h

lemma mem_joinComma {c : Char} : ∀ {es : List (List Char)}, c ∈ joinComma es →
    (∃ e ∈ es, c ∈ e) ∨ c = ',' := by
  intro es
  induction es with
  | nil => intro h; cases h
  | cons e rest ih =>
    cases rest with
    | nil =>
      intro h
      exact Or.inl ⟨e, by simp, h⟩
    | cons e2 rest2 =>
      intro h
      simp only [joinComma] at h
      rcases List.mem_append.mp h with h | h
      · exact Or.inl ⟨e, by simp, h⟩
      · rcases List.mem_cons.mp h with rfl | h
        · exact Or.inr rfl
        · rcases ih h with ⟨e3, he3, hc⟩ | h
          · exact Or.inl ⟨e3, by simp [he3], hc⟩
          · exact Or.inr h

lemma findTok_at_boundary (a b : Char) (e t : List Char)
    (he : ∀ c ∈ e, c ≠ a) :
    findTok a b (e ++ a :: b :: t) = some e.length := by
  induction e with
  | nil => simp [findTok]
  | cons c rest ih =>
    have hc : c ≠ a := he c (List.mem_cons_self c rest)
    have ih2 := ih (fun x hx => he x (List.mem_cons_of_mem _ hx))
    cases hee : rest ++ a :: b :: t with
    | nil => simp at hee
    | cons d tail =>
      simp only [List.cons_append, hee, findTok]
      rw [if_neg (by simp [hc])]
      rw [← hee, ih2]
      rfl

lemma findTok_none (a b : Char) (s : List Char) (h : ∀ c ∈ s, c ≠ a) :
    findTok a b s = none := by
  induction s with
  | nil => rfl
  | cons c rest ih =>
    cases rest with
    | nil => rfl
    | cons d rest2 =>
      simp only [findTok]
      rw [if_neg (by simp [h c (List.mem_cons_self c (d :: rest2))])]
      rw [ih (fun x hx => h x (List.mem_cons_of_mem _ hx))]
      rfl

lemma removeTok_self (a b : Char) (s : List Char) (h : ∀ c ∈ s, c ≠ a) :
    removeTok a b s = s := by
  induction s with
  | nil => rfl
  | cons c rest ih =>
    cases rest with
    | nil => rfl
    | cons d rest2 =>
      simp only [removeTok]
      rw [if_neg (by simp [h c (List.mem_cons_self c (d :: rest2))])]
      rw [ih (fun x hx => h x (List.mem_cons_of_mem _ hx))]

lemma lstripW_cons {c : Char} {s : List Char} (h : isWs c = false) :
    lstripW (c :: s) = c :: s := by
  simp [lstripW, List.dropWhile_cons, h]

lemma rstripW_concat {s : List Char} {c : Char} (h : isWs c = false) :
    rstripW (s ++ [c]) = s ++ [c] := by
  simp [rstripW, List.dropWhile_cons, h]

lemma stripW_wrap (mid : List Char) (c : Char) (hc : isWs c = false) :
    stripW ('[' :: mid ++ [c]) = '[' :: mid ++ [c] := by
  have h1 : rstripW ('[' :: mid ++ [c]) = '[' :: mid ++ [c] := by
    have h2 := rstripW_concat (s := '[' :: mid) (c := c) hc
    simpa using h2
  unfold stripW
  rw [h1]
  exact lstripW_cons (by decide)

lemma drop_after_pair (e t : List Char) (a b : Char) :
    (e ++ a :: b :: t).drop (e.length + 2) = t := by
  have h : e ++ a :: b :: t = (e ++ [a, b]) ++ t := by simp
  have h2 : e.length + 2 = (e ++ [a, b]).length := by simp
  rw [h, h2, List.drop_left]

lemma splitComma_no_comma (e : List Char) (h : ∀ c ∈ e, c ≠ ',') :
    splitComma e = [e] := by
  induction e with
  | nil => rfl
  | cons c rest ih =>
    simp only [splitComma]
    rw [if_neg (h c (List.mem_cons_self c rest))]
    rw [ih (fun x hx => h x (List.mem_cons_of_mem _ hx))]

lemma splitComma_append (e t : List Char) (h : ∀ c ∈ e, c ≠ ',') :
    splitComma (e ++ ',' :: t) = e :: splitComma t := by
  induction e with
  | nil => rfl
  | cons c rest ih =>
    simp only [List.cons_append, splitComma]
    rw [if_neg (h c (List.mem_cons_self c rest))]
    simp only [List.append_eq]
    rw [ih (fun x hx => h x (List.mem_cons_of_mem _ hx))]

lemma joinComma_ne_nil (es : List (List Char)) (hne : es ≠ [])
    (hv : ∀ e ∈ es, validElem e = true) : joinComma es ≠ [] := by
  cases es with
  | nil => exact absurd rfl hne
  | cons e rest =>
    cases rest with
    | nil => exact validElem_ne_nil (hv e (by simp))
    | cons e2 rest2 =>
      simp [joinComma]

lemma splitComma_joinComma : ∀ (es : List (List Char)), es ≠ [] →
    (∀ e ∈ es, validElem e = true) → splitComma (joinComma es) = es := by
  intro es
  induction es with
  | nil => intro h; exact absurd rfl h
  | cons e rest ih =>
    intro _ hv
    have hec : ∀ c ∈ e, c ≠ ',' :=
      fun c hc => ((validElem_props (hv e (by simp))).2 c hc).1
    cases rest with
    | nil => exact splitComma_no_comma e hec
    | cons e2 rest2 =>
      show splitComma (e ++ ',' :: joinComma (e2 :: rest2)) = e :: e2 :: rest2
      rw [splitComma_append e _ hec]
      rw [ih (by simp) (fun x hx => hv x (List.mem_cons_of_mem _ hx))]

lemma scanLoop_step_comma (fuel : ℕ) (out buffer : List Char) (i : ℕ)
    (h : findTok ',' '\n' buffer = some i) :
    scanLoop (fuel + 1) ⟨out, buffer, true⟩
      = scanLoop fuel ⟨out ++ buffer.take i ++ [','], buffer.drop (i + 2), true⟩ := by
  conv_lhs => rw [scanLoop]
  rw [if_neg (by simp), h]

lemma scanLoop_step_close (fuel : ℕ) (out buffer : List Char) (i : ℕ)
    (hc : findTok ',' '\n' buffer = none) (h : findTok '\n' ']' buffer = some i) :
    scanLoop (fuel + 1) ⟨out, buffer, true⟩
      = ⟨out ++ (if stripW (buffer.take i) = [] then [] else buffer.take i) ++ [']'],
          buffer.drop (i + 2), false⟩ := by
  conv_lhs => rw [scanLoop]
  rw [if_neg (by simp), hc, h]

lemma scanLoop_step_stuck (fuel : ℕ) (out buffer : List Char)
    (hc : findTok ',' '\n' buffer = none) (h : findTok '\n' ']' buffer = none) :
    scanLoop (fuel + 1) ⟨out, buffer, true⟩ = ⟨out, buffer, true⟩ := by
  conv_lhs => rw [scanLoop]
  rw [if_neg (by simp), hc, h]

lemma interElems_cons₂ (e e2 : List Char) (rest : List (List Char)) :
    interElems (e :: e2 :: rest) = e ++ ',' :: '\n' :: interElems (e2 :: rest) := rfl

lemma scanLoop_trunc : ∀ (es : List (List Char)), (∀ e ∈ es, validElem e = true) →
    ∀ (fuel : ℕ) (out : List Char), (interElems es).length ≤ fuel →
      scanLoop fuel ⟨out, interElems es, true⟩ = ⟨out ++ scanOut es, lastTail es, true⟩ := by
  intro es
  induction es with
  | nil =>
    intro hv fuel out _
    cases fuel with
    | zero => simp [scanLoop, interElems, scanOut, lastTail]
    | succ f =>
      rw [show interElems [] = [] from rfl,
        scanLoop_step_stuck f out [] rfl rfl]
      simp [scanOut, lastTail]
  | cons e rest ih =>
    cases rest with
    | nil =>
      intro hv fuel out _
      have hvv := validElem_props (hv e (by simp))
      have hnc : ∀ c ∈ e, c ≠ ',' := fun c hc => (hvv.2 c hc).1
      have hnn : ∀ c ∈ e, c ≠ '\n' := fun c hc => (hvv.2 c hc).2.2.2
      cases fuel with
      | zero => simp [scanLoop, interElems, scanOut, lastTail]
      | succ f =>
        rw [show interElems [e] = e from rfl,
          scanLoop_step_stuck f out e (findTok_none ',' '\n' e hnc)
            (findTok_none '\n' ']' e hnn)]
        simp [scanOut, lastTail]
    | cons e2 rest2 =>
      intro hv fuel out hfuel
      have hvv := validElem_props (hv e (by simp))
      have hnc : ∀ c ∈ e, c ≠ ',' := fun c hc => (hvv.2 c hc).1
      have hlen : (interElems (e :: e2 :: rest2)).length
          = e.length + 2 + (interElems (e2 :: rest2)).length := by
        rw [interElems_cons₂]
        simp
        omega
      cases fuel with
      | zero =>
        exfalso
        rw [hlen] at hfuel
        omega
      | succ f =>
        rw [interElems_cons₂,
          scanLoop_step_comma f out _ e.length (findTok_at_boundary ',' '\n' e _ hnc)]
        rw [List.take_left, drop_after_pair]
        rw [ih (fun x hx => hv x (List.mem_cons_of_mem _ hx)) f (out ++ e ++ [','])
          (by rw [hlen] at hfuel; omega)]
        simp [scanOut, lastTail, List.append_assoc]

lemma scanLoop_wf : ∀ (es : List (List Char)), (∀ e ∈ es, validElem e = true) →
    ∀ (fuel : ℕ) (out : List Char), (interElems es ++ ['\n', ']']).length ≤ fuel →
      scanLoop fuel ⟨out, interElems es ++ ['\n', ']'], true⟩
        = ⟨out ++ joinComma es ++ [']'], [], false⟩ := by
  intro es
  induction es with
  | nil =>
    intro hv fuel out hfuel
    cases fuel with
    | zero =>
      exfalso
      simp [interElems] at hfuel
    | succ f =>
      have hb : interElems [] ++ ['\n', ']'] = ([] : List Char) ++ '\n' :: ']' :: [] := rfl
      rw [hb, scanLoop_step_close f out _ 0
        (findTok_none ',' '\n' _ (by intro c hc; simp at hc; rcases hc with rfl | rfl <;> simp))
        (findTok_at_boundary '\n' ']' [] [] (by simp))]
      simp [joinComma]
  | cons e rest ih =>
    cases rest with
    | nil =>
      intro hv fuel out hfuel
      have hvv := validElem_props (hv e (by simp))
      have hnc : ∀ c ∈ e, c ≠ ',' := fun c hc => (hvv.2 c hc).1
      have hnn : ∀ c ∈ e, c ≠ '\n' := fun c hc => (hvv.2 c hc).2.2.2
      cases fuel with
      | zero =>
        exfalso
        simp [interElems] at hfuel
      | succ f =>
        have hb : interElems [e] ++ ['\n', ']'] = e ++ '\n' :: ']' :: [] := rfl
        have hnc2 : ∀ c ∈ e ++ '\n' :: ']' :: [], c ≠ ',' := by
          intro c hc
          rcases List.mem_append.mp hc with hc | hc
          · exact hnc c hc
          · simp at hc
            rcases hc with rfl | rfl <;> simp
        rw [hb, scanLoop_step_close f out _ e.length
          (findTok_none ',' '\n' _ hnc2) (findTok_at_boundary '\n' ']' e [] hnn)]
        rw [List.take_left, drop_after_pair]
        rw [if_neg hvv.1]
        rfl
    | cons e2 rest2 =>
      intro hv fuel out hfuel
      have hvv := validElem_props (hv e (by simp))
      have hnc : ∀ c ∈ e, c ≠ ',' := fun c hc => (hvv.2 c hc).1
      have hb : interElems (e :: e2 :: rest2) ++ ['\n', ']']
          = e ++ ',' :: '\n' :: (interElems (e2 :: rest2) ++ ['\n', ']']) := by
        rw [interElems_cons₂]
        simp
      cases fuel with
      | zero =>
        exfalso
        rw [hb] at hfuel
        simp at hfuel
      | succ f =>
        rw [hb, scanLoop_step_comma f out _ e.length (findTok_at_boundary ',' '\n' e _ hnc)]
        rw [List.take_left, drop_after_pair]
        rw [ih (fun x hx => hv x (List.mem_cons_of_mem _ hx)) f (out ++ e ++ [','])
          (by rw [hb] at hfuel; simp at hfuel ⊢; omega)]
        show _ = (⟨out ++ joinComma (e :: e2 :: rest2) ++ [']'], [], false⟩ : ScanState)
        have hj : joinComma (e :: e2 :: rest2) = e ++ ',' :: joinComma (e2 :: rest2) := rfl
        rw [hj]
        simp [List.append_assoc]

lemma processChunk_open (r : List Char) :
    processChunk ⟨[], [], false⟩ ('[' :: '\n' :: r)
      = scanLoop (removeTok '[' '\n' r).length ⟨['['], removeTok '[' '\n' r, true⟩ := rfl

lemma scanStream_trunc (es : List (List Char)) (hv : ∀ e ∈ es, validElem e = true) :
    scanStream [truncStream es] = '[' :: scanOut es := by
  have hnl : ∀ c ∈ interElems es, c ≠ '[' := by
    intro c hc
    rcases mem_interElems hc with ⟨e, he, hce⟩ | hc | hc
    · exact ((validElem_props (hv e he)).2 c hce).2.1
    · subst hc; simp
    · subst hc; simp
  unfold scanStream
  simp only [List.foldl_cons, List.foldl_nil]
  rw [show truncStream es = '[' :: '\n' :: interElems es from rfl, processChunk_open]
  rw [removeTok_self '[' '\n' _ hnl]
  rw [scanLoop_trunc es hv _ ['['] (le_refl _)]
  simp

lemma scanStream_wf (es : List (List Char)) (hv : ∀ e ∈ es, validElem e = true) :
    scanStream [wfStream es] = '[' :: joinComma es ++ [']'] := by
  have hnl : ∀ c ∈ interElems es ++ ['\n', ']'], c ≠ '[' := by
    intro c hc
    rcases List.mem_append.mp hc with hc | hc
    · rcases mem_interElems hc with ⟨e, he, hce⟩ | hc | hc
      · exact ((validElem_props (hv e he)).2 c hce).2.1
      · subst hc; simp
      · subst hc; simp
    · simp at hc
      rcases hc with rfl | rfl <;> simp
  unfold scanStream
  simp only [List.foldl_cons, List.foldl_nil]
  rw [show wfStream es = '[' :: '\n' :: (interElems es ++ ['\n', ']']) from rfl,
    processChunk_open]
  rw [removeTok_self '[' '\n' _ hnl]
  rw [scanLoop_wf es hv _ ['['] (le_refl _)]
  simp

lemma read_json_array_ok (es : List (List Char)) (hv : ∀ e ∈ es, validElem e = true) :
    read_json ('[' :: joinComma es ++ [']']) = .ok es := by
  cases es with
  | nil => rfl
  | cons e rest =>
    have hmid : joinComma (e :: rest) ≠ [] := joinComma_ne_nil _ (by simp) hv
    have hstrip : stripW ('[' :: joinComma (e :: rest) ++ [']'])
        = '[' :: joinComma (e :: rest) ++ [']'] := stripW_wrap _ ']' (by decide)
    have hg : ('[' :: joinComma (e :: rest) ++ [']']).getLast? = some ']' := by
      rw [show '[' :: joinComma (e :: rest) ++ [']']
        = ('[' :: joinComma (e :: rest)) ++ [']'] from rfl]
      exact List.getLast?_concat _
    have hc2 : ¬('[' :: joinComma (e :: rest) ++ [']'] = ['[', ']']) := by
      intro h
      apply hmid
      rw [← List.length_eq_zero]
      have h2 := congrArg List.length h
      simp only [List.length_cons, List.length_append, List.length_nil] at h2
      omega
    simp only [read_json]
    rw [hstrip]
    rw [if_neg (by simp)]
    rw [if_neg hc2]
    rw [if_pos ⟨rfl, hg⟩]
    rw [show (('[' :: joinComma (e :: rest) ++ [']']).drop 1)
      = joinComma (e :: rest) ++ [']'] from rfl]
    rw [List.dropLast_concat]
    rw [splitComma_joinComma (e :: rest) (by simp) hv]
    rw [if_pos (List.all_eq_true.mpr hv)]

lemma read_json_comma_err (mid : List Char) :
    read_json ('[' :: mid ++ [',']) = .error ⟨false⟩ := by
  have hstrip : stripW ('[' :: mid ++ [',']) = '[' :: mid ++ [','] :=
    stripW_wrap _ ',' (by decide)
  have hg : ('[' :: mid ++ [',']).getLast? = some ',' := by
    rw [show '[' :: mid ++ [','] = ('[' :: mid) ++ [','] from rfl]
    exact List.getLast?_concat _
  have hc2 : ¬('[' :: mid ++ [','] = ['[', ']']) := by
    intro h
    rw [h] at hg
    simp at hg
  have hc3 : ¬(('[' :: mid ++ [',']).head? = some '[' ∧
      ('[' :: mid ++ [',']).getLast? = some ']') := by
    rintro ⟨-, h2⟩
    rw [hg] at h2
    simp at h2
  simp only [read_json]
  rw [hstrip]
  rw [if_neg (by simp)]
  rw [if_neg hc2]
  rw [if_neg hc3]

lemma decodeText_of_ok (jd : List Char) (rows : List (List Char))
    (h : read_json jd = .ok rows) : decodeText jd = .ok rows := by
  unfold decodeText
  rw [h]

lemma decodeText_trunc_repair (front : List (List Char))
    (hv : ∀ e ∈ front, validElem e = true) :
    decodeText ('[' :: (joinComma front ++ [','])) = .ok front := by
  have herr : read_json ('[' :: (joinComma front ++ [','])) = .error ⟨false⟩ :=
    read_json_comma_err (joinComma front)
  have hrs : rstripW ('[' :: (joinComma front ++ [',']))
      = '[' :: (joinComma front ++ [',']) := by
    have h2 := rstripW_concat (s := '[' :: joinComma front) (c := ',') (by decide)
    simpa using h2
  have hst : stripW ('[' :: (joinComma front ++ [',']))
      = '[' :: (joinComma front ++ [',']) := stripW_wrap _ ',' (by decide)
  have hg : ('[' :: (joinComma front ++ [','])).getLast? = some ',' := by
    rw [show ('[' :: (joinComma front ++ [','] ) : List Char)
      = ('[' :: joinComma front) ++ [','] from rfl]
    exact List.getLast?_concat _
  have hdrop : ('[' :: (joinComma front ++ [','])).dropLast = '[' :: joinComma front := by
    rw [show ('[' :: (joinComma front ++ [','] ) : List Char)
      = ('[' :: joinComma front) ++ [','] from rfl]
    exact List.dropLast_concat
  have hok : read_json (('[' :: joinComma front) ++ [']']) = .ok front :=
    read_json_array_ok front hv
  unfold decodeText
  split
  · next rows heq =>
    rw [herr] at heq
    cases heq
  · next e heq =>
    rw [herr] at heq
    injection heq with he
    subst he
    rw [if_neg (by simp)]
    rw [if_pos ?hcond]
    case hcond =>
      refine ⟨?_, ?_, ?_⟩
      · rw [hst]; simp
      · rw [hst]; simp
      · rw [hst]
        intro h
        rw [h] at hg
        simp at hg
    rw [hrs, hg]
    rw [if_pos (by simp)]
    rw [if_pos rfl]
    rw [hdrop, hok]

lemma scanOut_front : ∀ (e e2 : List Char) (rest : List (List Char)),
    scanOut (e :: e2 :: rest) = joinComma ((e :: e2 :: rest).dropLast) ++ [','] := by
  intro e e2 rest
  induction rest generalizing e e2 with
  | nil => rfl
  | cons e3 rest ih =>
    show e ++ ',' :: scanOut (e2 :: e3 :: rest)
      = joinComma ((e :: e2 :: e3 :: rest).dropLast) ++ [',']
    rw [ih e2 e3]
    rw [show (e :: e2 :: e3 :: rest).dropLast = e :: (e2 :: e3 :: rest).dropLast from rfl]
    rw [show (e2 :: e3 :: rest).dropLast = e2 :: (e3 :: rest).dropLast from rfl]
    rw [show joinComma (e :: e2 :: (e3 :: rest).dropLast)
      = e ++ ',' :: joinComma (e2 :: (e3 :: rest).dropLast) from rfl]
    simp [List.append_assoc]

/-- C2 (amended): for a stream missing the closing bracket but otherwise
well-formed and not ending in a trailing comma, decoding succeeds via the
best-effort repair but yields the rows of the well-formed version minus the
final element — the scanner holds the unterminated last element in its buffer
and discards it at stream end; decoding the well-formed version yields all
rows; and when the repaired text still fails to parse, the original parse
failure is surfaced as the decode error. -/
theorem C2_truncated_stream_repair (es : List (List Char))
    (hv : ∀ e ∈ es, validElem e = true) :
    stream_decode [wfStream es] = .ok es ∧
    stream_decode [truncStream es] = .ok es.dropLast ∧
    stream_decode ["[\n6,,\n]".toList] = .error ⟨false⟩ := by
  refine ⟨?_, ?_, by rfl⟩
  · show decodeText (scanStream [wfStream es]) = .ok es
    rw [scanStream_wf es hv]
    exact decodeText_of_ok _ es (read_json_array_ok es hv)
  · cases es with
    | nil =>
      show decodeText (scanStream [truncStream []]) = .ok []
      rw [scanStream_trunc [] hv]
      exact rfl
    | cons e rest =>
      cases rest with
      | nil =>
        show decodeText (scanStream [truncStream [e]]) = .ok []
        rw [scanStream_trunc [e] hv]
        exact rfl
      | cons e2 rest2 =>
        show decodeText (scanStream [truncStream (e :: e2 :: rest2)])
          = .ok ((e :: e2 :: rest2).dropLast)
        rw [scanStream_trunc _ hv, scanOut_front]
        exact decodeText_trunc_repair ((e :: e2 :: rest2).dropLast)
          (fun x hx => hv x ((List.dropLast_sublist _).subset hx))

/-- C2 counterexample: the concrete truncated stream `[\n10,\n20` repairs to
one row, while its well-formed version `[\n10,\n20\n]` decodes to two rows, so
the truncated decode does not equal the well-formed decode. -/
theorem C2_counterexample :
    stream_decode ["[\n10,\n20".toList] = .ok ["10".toList] ∧
    stream_decode ["[\n10,\n20\n]".toList] = .ok ["10".toList, "20".toList] ∧
    stream_decode ["[\n10,\n20".toList] ≠ stream_decode ["[\n10,\n20\n]".toList] := by
  refine ⟨by rfl, by rfl, ?_⟩
  intro h
  rw [show stream_decode ["[\n10,\n20".toList] = .ok ["10".toList] from rfl] at h
  rw [show stream_decode ["[\n10,\n20\n]".toList]
    = .ok ["10".toList, "20".toList] from rfl] at h
  injection h with h2
  have h3 := congrArg List.length h2
  simp at h3

theorem C2_truncated_stream_repair_witness :
    stream_decode [truncStream ["10".toList, "20".toList]] = .ok ["10".toList] :=
  (C2_truncated_stream_repair ["10".toList, "20".toList] (by decide)).2.1

/-- A pandas cell of the 311-summary frames: a text label or a number. -/
inductive PdVal where
  | s (v : List Char)
  | n (v : ℤ)
  deriving DecidableEq

/-- A pandas DataFrame at the granularity C5 needs: named columns and
positional rows. -/
structure PdFrame where
  cols : List (List Char)
  rows : List (List PdVal)
  deriving DecidableEq

/-- Index of a named column (`"name" in df.columns` and the position used for
`df[name]`). -/
def colIdx (name : List Char) : List (List Char) → Option ℕ
  | [] => none
  | c :: rest => if c = name then some 0 else (colIdx name rest).map (· + 1)

/-- The cell of a row at a column position. -/
def getCell (row : List PdVal) (i : ℕ) : PdVal := row.getD i (.n 0)

/-- Numeric view of a cell (the `total` column holds numbers). -/
def valInt : PdVal → ℤ
  | .n v => v
  | .s _ => 0

def riName : List Char := "reported_issue".toList

def totName : List Char := "total".toList

/-- Lexicographic comparison of label texts (pandas sorts group keys). -/
def leChars : List Char → List Char → Bool
  | [], _ => true
  | _ :: _, [] => false
  | a :: as, b :: bs => if a = b then leChars as bs else decide (a < b)

/-- A total order on cells, numbers before texts, used for the group-key sort
order of `groupby(..., sort=True)`. -/
def lePdVal : PdVal → PdVal → Bool
  | .n a, .n b => decide (a ≤ b)
  | .n _, .s _ => true
  | .s _, .n _ => false
  | .s a, .s b => leChars a b

def insertLe (x : PdVal) : List PdVal → List PdVal
  | [] => [x]
  | y :: ys => if lePdVal x y then x :: y :: ys else y :: insertLe x ys

/-- Insertion sort by `lePdVal`. -/
def sortPdVal : List PdVal → List PdVal
  | [] => []
  | x :: xs => insertLe x (sortPdVal xs)

/-- The distinct labels of a column (one entry per distinct value). -/
def dedupVals : List PdVal → List PdVal
  | [] => []
  | x :: xs => if xs.contains x then dedupVals xs else x :: dedupVals xs

/-- Sum of the `total` cells of the rows carrying a given label. -/
def sumTotal (rows : List (List PdVal)) (li ti : ℕ) (l : PdVal) : ℤ :=
  ((rows.filter (fun r => decide (getCell r li = l))).map
    (fun r => valInt (getCell r ti))).sum

/-- Embedding of `df.groupby("reported_issue", as_index=False)["total"].sum()`
(app.py line 183): one row per distinct label, in sorted key order, carrying
the per-label sum of totals. -/
def groupby_sum_total (df : PdFrame) (li ti : ℕ) : PdFrame :=
  PdFrame.mk [riName, totName]
    ((sortPdVal (dedupVals (df.rows.map (fun r => getCell r li)))).map
      (fun l => [l, .n (sumTotal df.rows li ti l)]))

/-- `pd.concat(all_dfs, ignore_index=True)`, modelled for batch frames that
share one schema: first frame's columns, all rows appended. -/
def pdConcat (dfs : List PdFrame) : PdFrame :=
  PdFrame.mk (((dfs.head?).map PdFrame.cols).getD []) ((dfs.map PdFrame.rows).flatten)

/-- The batching loop `for i in range(0, len(id_list), BATCH_SIZE)` with
`BATCH_SIZE = 50`: successive slices `id_list[i:i+50]`. Fuel-driven; the
caller supplies the list length, which bounds the number of slices. -/
def batchChunks : ℕ → List ℕ → List (List ℕ)
  | _, [] => []
  | 0, l => [l]
  | fuel + 1, l => l.take 50 :: batchChunks fuel (l.drop 50)

/-- The batches of one resolve call. -/
def batchSplit (ids : List ℕ) : List (List ℕ) := batchChunks ids.length ids

/-- Embedding of the `event_ids` branch of `get_select_311_data` (app.py lines
158-187). `fetch` is the per-batch upstream call plus stream decode;
`fetch b = none` models a batch whose call raised and is skipped by the
`except: continue`. Returns `none` for the empty-string returns (no ids, or
every batch failed). The CSV round-trip `df.to_csv`/`pd.read_csv` between this
function and its caller is modelled as the identity on the frame; the
`311_dash.csv` side-effect write is dropped. -/
def get_select_311_data (fetch : List ℕ → Option PdFrame) (event_ids : List ℕ) :
    Option PdFrame :=
  if event_ids = [] then none
  else if (batchSplit event_ids).filterMap fetch = [] then none
  else
    match colIdx riName (pdConcat ((batchSplit event_ids).filterMap fetch)).cols,
        colIdx totName (pdConcat ((batchSplit event_ids).filterMap fetch)).cols with
    | some li, some ti =>
      some (groupby_sum_total (pdConcat ((batchSplit event_ids).filterMap fetch)) li ti)
    | _, _ => some (pdConcat ((batchSplit event_ids).filterMap fetch))

/-- Python `dict` insertion: a repeated key keeps its position and takes the
new value. -/
def dictIns : List (PdVal × PdVal) → PdVal → PdVal → List (PdVal × PdVal)
  | [], k, v => [(k, v)]
  | (k2, v2) :: rest, k, v =>
    if k2 = k then (k2, v) :: rest else (k2, v2) :: dictIns rest k v

/-- `dict(zip(labels, values))`. -/
def dictZip (pairs : List (PdVal × PdVal)) : List (PdVal × PdVal) :=
  pairs.foldl (fun d p => dictIns d p.1 p.2) []

/-- Embedding of `compute_area_category_counts` (app.py lines 16-28): empty id
list gives an empty mapping; the resolved frame's label/value columns are the
named pair when present, else the first two columns positionally; `none`
models the exception `pd.read_csv` raises on the empty-string resolve
result. -/
def compute_area_category_counts (fetch : List ℕ → Option PdFrame)
    (event_ids : List ℕ) : Option (List (PdVal × PdVal)) :=
  if event_ids = [] then some []
  else
    match get_select_311_data fetch event_ids with
    | none => none
    | some df =>
      match colIdx riName df.cols, colIdx totName df.cols with
      | some li, some ti =>
        some (dictZip (df.rows.map (fun r => (getCell r li, getCell r ti))))
      | _, _ =>
        match df.cols with
        | _ :: _ :: _ => some (dictZip (df.rows.map (fun r => (getCell r 0, getCell r 1))))
        | _ => none

lemma batchChunks_spec : ∀ (fuel : ℕ) (l : List ℕ), l.length ≤ fuel →
    (∀ b ∈ batchChunks fuel l, b.length ≤ 50 ∧ b ≠ []) ∧
    (batchChunks fuel l).flatten = l := by
  intro fuel
  induction fuel with
  | zero =>
    intro l hl
    have h0 : l = [] := by
      rw [← List.length_eq_zero]
      omega
    subst h0
    exact ⟨by simp [batchChunks], by simp [batchChunks]⟩
  | succ f ih =>
    intro l hl
    cases l with
    | nil => exact ⟨by simp [batchChunks], by simp [batchChunks]⟩
    | cons x xs =>
      have hrec := ih ((x :: xs).drop 50)
        (by simp only [List.length_drop, List.length_cons] at hl ⊢; omega)
      constructor
      · intro b hb
        rw [show batchChunks (f + 1) (x :: xs)
          = (x :: xs).take 50 :: batchChunks f ((x :: xs).drop 50) from rfl] at hb
        rcases List.mem_cons.mp hb with rfl | hb
        · constructor
          · exact List.length_take_le 50 (x :: xs)
          · rw [show (x :: xs).take 50 = x :: xs.take 49 from rfl]
            exact List.cons_ne_nil _ _
        · exact hrec.1 b hb
      · rw [show batchChunks (f + 1) (x :: xs)
          = (x :: xs).take 50 :: batchChunks f ((x :: xs).drop 50) from rfl]
        rw [List.flatten_cons, hrec.2]
        exact List.take_append_drop 50 (x :: xs)

lemma batchSplit_120 (ids : List ℕ) (h : ids.length = 120) :
    (batchSplit ids).map List.length = [50, 50, 20] := by
  unfold batchSplit
  rw [h]
  cases ids with
  | nil => simp at h
  | cons x xs =>
    cases h1 : (x :: xs).drop 50 with
    | nil =>
      have h1l := congrArg List.length h1
      simp only [List.length_drop, h, List.length_nil] at h1l
      omega
    | cons y ys =>
      cases h2 : (y :: ys).drop 50 with
      | nil =>
        have h1l := congrArg List.length h1
        have h2l := congrArg List.length h2
        simp only [List.length_drop, h, List.length_nil, List.length_cons] at h1l h2l
        omega
      | cons z zs =>
        have h1l := congrArg List.length h1
        have h2l := congrArg List.length h2
        simp only [List.length_drop, h, List.length_cons] at h1l h2l
        have hz : (z :: zs).drop 50 = [] := by
          rw [← List.length_eq_zero]
          simp only [List.length_drop, List.length_cons]
          omega
        rw [show batchChunks 120 (x :: xs)
          = (x :: xs).take 50 :: batchChunks 119 ((x :: xs).drop 50) from rfl]
        rw [h1]
        rw [show batchChunks 119 (y :: ys)
          = (y :: ys).take 50 :: batchChunks 118 ((y :: ys).drop 50) from rfl]
        rw [h2]
        rw [show batchChunks 118 (z :: zs)
          = (z :: zs).take 50 :: batchChunks 117 ((z :: zs).drop 50) from rfl]
        rw [hz]
        rw [show batchChunks 117 ([] : List ℕ) = [] from rfl]
        simp only [List.map_cons, List.map_nil, List.length_take, h, List.length_cons]
        norm_num
        omega

lemma insertLe_perm (x : PdVal) (l : List PdVal) : (insertLe x l).Perm (x :: l) := by
  induction l with
  | nil => exact List.Perm.refl _
  | cons y ys ih =>
    by_cases h : lePdVal x y
    · simp [insertLe, h]
    · simp only [insertLe, if_neg h]
      exact (ih.cons y).trans (List.Perm.swap x y ys)

lemma sortPdVal_perm (l : List PdVal) : (sortPdVal l).Perm l := by
  induction l with
  | nil => exact List.Perm.refl _
  | cons x xs ih => exact (insertLe_perm x (sortPdVal xs)).trans (ih.cons x)

lemma dedupVals_mem {x : PdVal} : ∀ {l : List PdVal}, x ∈ dedupVals l ↔ x ∈ l := by
  intro l
  induction l with
  | nil => simp [dedupVals]
  | cons y ys ih =>
    by_cases h : ys.contains y
    · simp only [dedupVals, if_pos h]
      rw [ih]
      constructor
      · exact fun hx => List.mem_cons_of_mem _ hx
      · intro hx
        rcases List.mem_cons.mp hx with rfl | hx
        · simpa using h
        · exact hx
    · simp only [dedupVals, if_neg h, List.mem_cons, List.mem_cons]
      rw [ih]

lemma dedupVals_nodup : ∀ (l : List PdVal), (dedupVals l).Nodup := by
  intro l
  induction l with
  | nil => simp [dedupVals]
  | cons y ys ih =>
    by_cases h : ys.contains y
    · simp only [dedupVals]
      rw [if_pos h]
      exact ih
    · simp only [dedupVals]
      rw [if_neg h]
      refine List.nodup_cons.mpr ⟨?_, ih⟩
      rw [dedupVals_mem]
      simpa using h

lemma groupby_labels (df : PdFrame) (li ti : ℕ) :
    (groupby_sum_total df li ti).rows.map (fun r => getCell r 0)
      = sortPdVal (dedupVals (df.rows.map (fun r => getCell r li))) := by
  show ((sortPdVal (dedupVals (df.rows.map (fun r => getCell r li)))).map
    (fun l => [l, .n (sumTotal df.rows li ti l)])).map (fun r => getCell r 0) = _
  rw [List.map_map]
  have hcomp : ((fun r => getCell r 0) ∘ fun l => [l, PdVal.n (sumTotal df.rows li ti l)])
      = id := funext fun l => rfl
  rw [hcomp, List.map_id]

lemma groupby_sum_total_spec (df : PdFrame) (li ti : ℕ) :
    ((groupby_sum_total df li ti).rows.map (fun r => getCell r 0)).Nodup ∧
    (∀ l, l ∈ (groupby_sum_total df li ti).rows.map (fun r => getCell r 0) ↔
      l ∈ df.rows.map (fun r => getCell r li)) ∧
    (∀ row ∈ (groupby_sum_total df li ti).rows,
      ∃ l, row = [l, .n (sumTotal df.rows li ti l)]) := by
  refine ⟨?_, ?_, ?_⟩
  · rw [groupby_labels]
    exact ((sortPdVal_perm _).nodup_iff).mpr (dedupVals_nodup _)
  · intro l
    rw [groupby_labels]
    rw [(sortPdVal_perm _).mem_iff]
    exact dedupVals_mem
  · intro row hrow
    obtain ⟨l, _, rfl⟩ := List.mem_map.mp hrow
    exact ⟨l, rfl⟩

lemma pdConcat_uniform (dfs : List PdFrame) (cs : List (List Char)) (hne : dfs ≠ [])
    (h : ∀ d ∈ dfs, d.cols = cs) :
    pdConcat dfs = PdFrame.mk cs ((dfs.map PdFrame.rows).flatten) := by
  cases dfs with
  | nil => exact absurd rfl hne
  | cons d rest =>
    unfold pdConcat
    simp [h d (by simp)]

/-- C5: the batch resolve splits the ids into slices of at most 50 that cover
the input (a 120-id input giving exactly the three calls 50, 50, 20); a
failing batch is skipped and the surviving batch frames are concatenated —
with the named `reported_issue`/`total` columns present the result carries one
row per distinct label holding the summed totals over all surviving rows, and
without them the caller reads label and value from the first two columns
positionally. -/
theorem C5_batch_resolve (fetch : List ℕ → Option PdFrame) (event_ids : List ℕ)
    (cs : List (List Char)) :
    (∀ b ∈ batchSplit event_ids, b.length ≤ 50 ∧ b ≠ []) ∧
    (batchSplit event_ids).flatten = event_ids ∧
    (event_ids.length = 120 → (batchSplit event_ids).map List.length = [50, 50, 20]) ∧
    (event_ids = [] → get_select_311_data fetch event_ids = none) ∧
    (event_ids ≠ [] → (batchSplit event_ids).filterMap fetch ≠ [] →
      (∀ d ∈ (batchSplit event_ids).filterMap fetch, d.cols = cs) →
      ((colIdx riName cs = none ∨ colIdx totName cs = none →
        get_select_311_data fetch event_ids
          = some (PdFrame.mk cs
              ((((batchSplit event_ids).filterMap fetch).map PdFrame.rows).flatten))) ∧
       (∀ li ti, colIdx riName cs = some li → colIdx totName cs = some ti →
        ∃ df, get_select_311_data fetch event_ids = some df ∧
          (df.rows.map (fun r => getCell r 0)).Nodup ∧
          (∀ l, l ∈ df.rows.map (fun r => getCell r 0) ↔
            l ∈ ((((batchSplit event_ids).filterMap fetch).map PdFrame.rows).flatten).map
              (fun r => getCell r li)) ∧
          (∀ row ∈ df.rows, ∃ l, row = [l, .n (sumTotal
            ((((batchSplit event_ids).filterMap fetch).map PdFrame.rows).flatten)
            li ti l)])))) ∧
    (∀ df li ti, get_select_311_data fetch event_ids = some df → event_ids ≠ [] →
      colIdx riName df.cols = some li → colIdx totName df.cols = some ti →
      compute_area_category_counts fetch event_ids
        = some (dictZip (df.rows.map (fun r => (getCell r li, getCell r ti))))) ∧
    (∀ df c0 c1 crest, get_select_311_data fetch event_ids = some df → event_ids ≠ [] →
      (colIdx riName df.cols = none ∨ colIdx totName df.cols = none) →
      df.cols = c0 :: c1 :: crest →
      compute_area_category_counts fetch event_ids
        = some (dictZip (df.rows.map (fun r => (getCell r 0, getCell r 1))))) := by
  have hb := batchChunks_spec event_ids.length event_ids (le_refl _)
  refine ⟨hb.1, hb.2, batchSplit_120 event_ids, ?_, ?_, ?_, ?_⟩
  · intro h
    unfold get_select_311_data
    rw [if_pos h]
  · intro hne hsucc hcols
    have hcc : pdConcat ((batchSplit event_ids).filterMap fetch)
        = PdFrame.mk cs ((((batchSplit event_ids).filterMap fetch).map
            PdFrame.rows).flatten) :=
      pdConcat_uniform _ cs hsucc hcols
    constructor
    · intro hnone
      unfold get_select_311_data
      rw [if_neg hne, if_neg hsucc, hcc]
      rw [show (PdFrame.mk cs ((((batchSplit event_ids).filterMap fetch).map
        PdFrame.rows).flatten)).cols = cs from rfl]
      rcases hnone with hnone | hnone
      · rw [hnone]
      · rw [hnone]
        cases hri : colIdx riName cs with
        | none => rfl
        | some t => rfl
    · intro li ti hli hti
      refine ⟨groupby_sum_total (PdFrame.mk cs ((((batchSplit event_ids).filterMap
        fetch).map PdFrame.rows).flatten)) li ti, ?_, ?_, ?_, ?_⟩
      · unfold get_select_311_data
        rw [if_neg hne, if_neg hsucc, hcc]
        rw [show (PdFrame.mk cs ((((batchSplit event_ids).filterMap fetch).map
          PdFrame.rows).flatten)).cols = cs from rfl]
        rw [hli, hti]
      · exact (groupby_sum_total_spec _ li ti).1
      · intro l
        exact (groupby_sum_total_spec (PdFrame.mk cs ((((batchSplit
          event_ids).filterMap fetch).map PdFrame.rows).flatten)) li ti).2.1 l
      · exact (groupby_sum_total_spec _ li ti).2.2
  · intro df li ti hdf hne hli hti
    unfold compute_area_category_counts
    rw [if_neg hne]
    split
    · next heq =>
      rw [hdf] at heq
      cases heq
    · next df2 heq =>
      rw [hdf] at heq
      injection heq with he
      subst he
      rw [hli, hti]
  · intro df c0 c1 crest hdf hne hnone hshape
    unfold compute_area_category_counts
    rw [if_neg hne]
    split
    · next heq =>
      rw [hdf] at heq
      cases heq
    · next df2 heq =>
      rw [hdf] at heq
      injection heq with he
      subst he
      rcases hnone with hnone | hnone
      · rw [hnone]
        cases htot : colIdx totName df.cols with
        | none => rw [hshape]
        | some t => rw [hshape]
      · rw [hnone]
        cases hri : colIdx riName df.cols with
        | none => rw [hshape]
        | some t => rw [hshape]

theorem C5_batch_resolve_witness :
    (batchSplit (List.range 120)).map List.length = [50, 50, 20] ∧
    get_select_311_data (fun _ => none) [] = none :=
  ⟨(C5_batch_resolve (fun _ => none) (List.range 120) []).2.2.1 (by simp),
   (C5_batch_resolve (fun _ => none) [] []).2.2.2.1 rfl⟩

theorem C4_bounding_box_filter_witness :
    specInBox (RawRow.mk 1 none (some (-71)) none) = false :=
  (C4_bounding_box_filter (fun t => t) true []).2.1
    (RawRow.mk 1 none (some (-71)) none) (Or.inl rfl)
